import Mathlib

/-!
Verification of plume-bot: plugin registry and message dispatch

A shallow embedding of `src/handler.js` (class `CommandRegistry` and the default records
that `handler` initialises), of the part of `src/index.js` that builds `global.prefix`, and
of `compareVersions` from `src/lib/update-checker.js`.

Conventions of the embedding

* JavaScript strings are Lean strings; the string primitives the dispatcher calls
  (`slice`, `trim`, `split(" ")`, `join(" ")`, `replace(/[^0-9]/g, '')`) are defined
  below on the underlying character lists.  `toLowerCase` is a primitive of the
  platform and is kept as a field of `Host`.
* A call that can fail is described by an `Outcome`: it returns a value (or a
  promise that fulfils), throws synchronously, or returns a promise that rejects.
* What a run of `handleMessage` does is recorded as a list of `Event`s, in the
  order in which they happen, together with the way its promise settles.
* Opaque capabilities that are only passed through (`conn`, `store`,
  `chatUpdate`) are not part of the context records.
* The numbers of `compareVersions` are doubles: `Number` is modelled on strings of
  decimal digits, with rounding to the nearest double.
* A record of the database is the list of its own properties; a table is a list of
  entries indexed by identity.
-/

namespace PlumeBot

/-! ## String primitives -/

/-- White space in the sense of `String.prototype.trim` (WhiteSpace and LineTerminator). -/
def isJsWhiteSpace (c : Char) : Bool :=
  let n := c.toNat
  n == 0x09 || n == 0x0A || n == 0x0B || n == 0x0C || n == 0x0D || n == 0x20 ||
  n == 0xA0 || n == 0x1680 || (0x2000 ≤ n && n ≤ 0x200A) || n == 0x2028 ||
  n == 0x2029 || n == 0x202F || n == 0x205F || n == 0x3000 || n == 0xFEFF

/-- The method `s.trim()`. -/
def jsTrim (s : String) : String :=
  ⟨((s.data.dropWhile isJsWhiteSpace).reverse.dropWhile isJsWhiteSpace).reverse⟩

/-- Worker of `jsSplitSpace`: `cur` holds the current token, reversed. -/
def splitSpaceAux : List Char → List Char → List String
  | [], cur => [⟨cur.reverse⟩]
  | c :: cs, cur =>
    if c = ' ' then ⟨cur.reverse⟩ :: splitSpaceAux cs [] else splitSpaceAux cs (c :: cur)

/-- The method `s.split(" ")`: cut at every single space, empty tokens are kept. -/
def jsSplitSpace (s : String) : List String :=
  splitSpaceAux s.data []

/-- The method `xs.join(" ")`. -/
def jsJoinSpace : List String → String
  | [] => ""
  | [a] => a
  | a :: b :: rest => a ++ " " ++ jsJoinSpace (b :: rest)

/-- The method `s.slice(start)` for a start that is `undefined` (`none`) or a non-negative
integer: `undefined` is converted to `0`. -/
def jsSlice (s : String) (start : Option Nat) : String :=
  match start with
  | none => s
  | some n => ⟨s.data.drop n⟩

/-- The call `v.replace(/[^0-9]/g, '')`: keep the ASCII digits only. -/
def stripNonDigits (v : String) : String :=
  ⟨v.data.filter Char.isDigit⟩

/-- A compiled regular expression, known through its `test` method (a pattern without the
`g` and `y` flags: the result of `test` depends on the argument only). -/
structure RegExp where
  test : String → Bool

/-- The property read `re.length`: a RegExp object has no `length` property, the read
gives `undefined`. -/
def RegExp.length (_re : RegExp) : Option Nat :=
  none

/-- The default character class of `global.prefix` (`src/index.js`, line 89), as the
characters of the string literal in the source file. -/
def defaultPrefixClass : List Char :=
  ([0x8292, 0x9227, 0xe0e0, 0x7d70, 0x7a, 0x58, 0x5a, 0x2f, 0x69, 0x21, 0x23, 0x24, 0x25,
    0x2b, 0x8117, 0x62e2, 0x8117, 0x5784, 0x8292, 0x9225, 0x6bec, 0xe0de, 0x506e, 0xe664,
    0x8117, 0x63b3, 0x3d, 0x8117, 0x9732, 0x8292, 0x85db, 0x9225, 0x7286, 0x51a3, 0x20ac,
    0x6586, 0x515f, 0x8bbf, 0x5fca, 0x5053, 0x8292, 0x85db, 0x62e7, 0x8292, 0x8259, 0x9225,
    0x6e8d, 0x506e, 0x251f, 0x506e, 0xfffd, 0x3a, 0x3b, 0x3f, 0x26, 0x2e, 0x5c, 0x2d] :
    List Nat).map Char.ofNat

/-- The value of `global.prefix`: `new RegExp('^[' + escape(opts.prefix || default) + ']')`.
Every character of the class is escaped, so the pattern matches exactly the bodies whose
first character belongs to the class; an empty `opts.prefix` is falsy and gives the default.
Characters are code points here: a class character outside the Basic Multilingual Plane,
which the RegExp (it has no `u` flag) reads as two code units, is not treated. -/
def globalPrefix (optsPrefix : Option String) : RegExp :=
  let cls : List Char :=
    match optsPrefix with
    | some s => if s.data = [] then defaultPrefixClass else s.data
    | none => defaultPrefixClass
  { test := fun body =>
      match body.data with
      | [] => false
      | c :: _ => cls.contains c }

/-! ## Data model -/

/-- How a call ends: with a value (also a promise that fulfils), with a synchronous
exception, or with a promise that rejects. -/
inductive Outcome (α : Type) where
  | value (a : α)
  | throws
  | rejects

/-- A property that should hold a function: absent (or any falsy value), a truthy value
that is not callable, or a function. -/
inductive Body (α : Type) where
  | missing
  | notCallable
  | fn (f : α)

/-- Truthiness of a `Body` property. -/
def Body.truthy {α : Type} : Body α → Bool
  | .missing => false
  | _ => true

/-- An entry of `alias`: a string or a RegExp. -/
inductive Alias where
  | literal (s : String)
  | pattern (re : RegExp)

/-- The serialized message `m`, with the fields the registry reads. -/
structure Message where
  fromMe : Bool
  body : Option String
  isGroup : Bool
  sender : String
  chat : String
  remoteJid : String

/-- The second argument of `exec`. -/
structure ExecContext where
  text : String
  args : List String
  isAdmin : Bool
  isOwner : Bool

/-- The second argument of `main`. -/
structure EventContext where
  isAdmin : Bool
  isBotAdmin : Bool

/-- The object `plugin.run` exported by a plugin file.  `name` is `none` when the property
is absent; `aliases` is the property `alias`, `none` when it is absent or not an array. -/
structure Descriptor where
  name : Option String
  aliases : Option (List Alias)
  noPrefix : Bool
  exec : Body (Message → ExecContext → Outcome Unit)
  main : Body (Message → EventContext → Outcome Unit)

/-- The `admin` property of a participant record. -/
inductive AdminField where
  | undefined
  | null
  | isFalse
  | rank (r : String)

/-- A participant of a group roster. -/
structure Participant where
  id : String
  admin : AdminField

/-- The group metadata object. -/
structure GroupMetadata where
  participants : List Participant

/-- The connection `conn`, with the members the registry uses.  `groupMetadata` may settle
with `undefined` (`none`). -/
structure Conn where
  userId : String
  decodeJid : String → Outcome String
  groupMetadata : String → Outcome (Option GroupMetadata)

/-- Functions the registry imports from modules outside this development
(`./lib/serialize`, `./lib/print`) and the platform's `String.prototype.toLowerCase`. -/
structure Host where
  toLowerCase : String → String
  getGroupAdmins : List Participant → List String
  print : Message → Outcome Unit

/-- The globals read by `handleMessage`: `global.prefix` and `global.owner`. -/
structure Globals where
  prefixRe : RegExp
  owner : List String

/-- The registry: `commands` is the insertion-ordered `Map`, `eventHandlers` the array,
`caseHandler` the module loaded from the case file (`missing` stands for `null`). -/
structure CommandRegistry where
  commands : List (String × Descriptor)
  eventHandlers : List Descriptor
  caseHandler : Body (Message → Outcome Unit)

/-- Observable steps of a dispatch. -/
inductive Event where
  | main (h : Descriptor) (ctx : EventContext)
  | print
  | exec (d : Descriptor) (ctx : ExecContext)
  | caseHandler
  | errorInEventPlugin
  | errorHandlingMessage

/-- How the promise returned by `handleMessage` settles. -/
inductive Completion where
  | resolved
  | rejected
  deriving DecidableEq, Repr

/-- How the body of the `try` block of `handleMessage` ends: an exception reaches the
`catch` clause, or a `return` (or the end of the block) settles the promise. -/
inductive Flow where
  | threw
  | returned (c : Completion)
  deriving DecidableEq, Repr

/-- The result of one call of `handleMessage`. -/
structure Dispatch where
  trace : List Event
  completion : Completion

/-! ## The command table (a JavaScript `Map` with string keys) -/

/-- The method `commands.has(key)`. -/
def mapHas (t : List (String × Descriptor)) (key : String) : Bool :=
  t.any (fun e => e.1 == key)

/-- The method `commands.get(key)`. -/
def mapGet (t : List (String × Descriptor)) (key : String) : Option Descriptor :=
  match t with
  | [] => none
  | (k, d) :: rest => if k = key then some d else mapGet rest key

/-- The method `commands.set(key, value)`: an existing key keeps its place and gets the
new value, a new key is appended. -/
def mapSet (t : List (String × Descriptor)) (key : String) (value : Descriptor) :
    List (String × Descriptor) :=
  match t with
  | [] => [(key, value)]
  | (k, d) :: rest => if k = key then (k, value) :: rest else (k, d) :: mapSet rest key value

/-! ## The plugin loader (`loadPluginFile`) -/

/-- The module object returned by `require(filePath)`; `run` is `none` when the export is
absent (or falsy). -/
structure PluginModule where
  run : Option Descriptor

/-- Truthiness of `plugin.run.name`: present and not the empty string. -/
def nameTruthy (name : Option String) : Bool :=
  match name with
  | some s => !(s == "")
  | none => false

/-- The loop over `plugin.run.alias`: a RegExp is skipped, a string is set as a key. -/
def setAliases (cmds : List (String × Descriptor)) (run : Descriptor) :
    List Alias → List (String × Descriptor)
  | [] => cmds
  | Alias.pattern _ :: rest => setAliases cmds run rest
  | Alias.literal a :: rest => setAliases (mapSet cmds a run) run rest

/-- The method `loadPluginFile(filePath)`; `fileName` is `path.basename(filePath)` and
`plugin` the result of `require(filePath)`, `none` when it throws (the error is caught and
logged, nothing is registered). -/
def loadPluginFile (reg : CommandRegistry) (fileName : String) (plugin : Option PluginModule) :
    CommandRegistry :=
  match plugin with
  | none => reg
  | some p =>
    match p.run with
    | none => reg
    | some run =>
      if fileName.data.head? = some '_' && run.main.truthy then
        { reg with eventHandlers := reg.eventHandlers ++ [run] }
      else
        match run.name with
        | none => reg
        | some name =>
          if nameTruthy (some name) then
            let cmds := mapSet reg.commands name run
            match run.aliases with
            | some al => { reg with commands := setAliases cmds run al }
            | none => { reg with commands := cmds }
          else reg

/-! ## The event stage (`processEventPlugins`) -/

/-- The expression `participants.find(p => p.id === id)?.admin !== false`. -/
def adminNotFalse (participants : List Participant) (id : String) : Bool :=
  match participants.find? (fun p => p.id == id) with
  | some p =>
    match p.admin with
    | AdminField.isFalse => false
    | _ => true
  | none => true

/-- The loop over `this.eventHandlers`: each `await handler.main(m, ctx)` runs inside its
own `try`; a failure is logged and the loop goes on. -/
def runEventHandlers (m : Message) (ctx : EventContext) : List Descriptor → List Event
  | [] => []
  | handler :: rest =>
    (match handler.main with
      | Body.fn f =>
        match f m ctx with
        | Outcome.value _ => [Event.main handler ctx]
        | _ => [Event.main handler ctx, Event.errorInEventPlugin]
      | _ => [Event.errorInEventPlugin]) ++ runEventHandlers m ctx rest

/-- The method `processEventPlugins`: the events it produces and whether it completes
(`false`: an exception leaves the method). -/
def processEventPlugins (reg : CommandRegistry) (m : Message) (conn : Conn) :
    List Event × Bool :=
  if m.isGroup then
    match conn.groupMetadata m.chat with
    | Outcome.value (some groupMetadata) =>
      let participants := groupMetadata.participants
      (runEventHandlers m
        { isAdmin := adminNotFalse participants m.sender,
          isBotAdmin := adminNotFalse participants conn.userId } reg.eventHandlers, true)
    | _ => ([], false)
  else
    (runEventHandlers m { isAdmin := false, isBotAdmin := false } reg.eventHandlers, true)

/-! ## The dispatcher (`handleMessage`) -/

/-- The statement `return plugin.exec(m, ctx)` inside the `try` block.  The returned
promise is not awaited there: a synchronous exception reaches the `catch` clause, a
rejection settles the promise of `handleMessage`. -/
def returnExec (plugin : Descriptor) (m : Message) (ctx : ExecContext) : List Event × Flow :=
  match plugin.exec with
  | Body.fn f =>
    ([Event.exec plugin ctx],
      match f m ctx with
      | Outcome.value _ => Flow.returned Completion.resolved
      | Outcome.throws => Flow.threw
      | Outcome.rejects => Flow.returned Completion.rejected)
  | _ => ([], Flow.threw)

/-- The statements `if (this.caseHandler) return this.caseHandler(m, conn, chatUpdate); return;`. -/
def returnCase (reg : CommandRegistry) (m : Message) : List Event × Flow :=
  match reg.caseHandler with
  | Body.missing => ([], Flow.returned Completion.resolved)
  | Body.notCallable => ([], Flow.threw)
  | Body.fn f =>
    ([Event.caseHandler],
      match f m with
      | Outcome.value _ => Flow.returned Completion.resolved
      | Outcome.throws => Flow.threw
      | Outcome.rejects => Flow.returned Completion.rejected)

/-- What lines 122-124 compute from the body. -/
structure Parsed where
  command : String
  args : List String
  text : String
  deriving DecidableEq

/-- Lines 122-124: `args = m.body.slice(prefix.length).trim().split(" ")`,
`command = args.shift().toLowerCase()`, `text = args.join(" ")`; here `prefix` is the
global RegExp.  `none` stands for the exception raised when `shift` gives `undefined`. -/
def parseCommand (host : Host) (g : Globals) (body : String) : Option Parsed :=
  match jsSplitSpace (jsTrim (jsSlice body g.prefixRe.length)) with
  | [] => none
  | first :: args =>
    some { command := host.toLowerCase first, args := args, text := jsJoinSpace args }

/-- The prefix stage, lines 122-141. -/
def prefixStage (host : Host) (g : Globals) (reg : CommandRegistry) (m : Message)
    (body : String) (isAdmin isOwner : Bool) : List Event × Flow :=
  match parseCommand host g body with
  | none => ([], Flow.threw)
  | some p =>
    if mapHas reg.commands p.command then
      match mapGet reg.commands p.command with
      | some plugin =>
        returnExec plugin m
          { text := p.text, args := p.args, isAdmin := isAdmin, isOwner := isOwner }
      | none => ([], Flow.threw)
    else returnCase reg m

/-- Whether some RegExp entry of `alias` matches: the inner loop of lines 157-168. -/
def patternAliasMatches (aliases : Option (List Alias)) (msgLower : String) : Bool :=
  match aliases with
  | none => false
  | some al =>
    al.any fun a =>
      match a with
      | Alias.pattern re => re.test msgLower
      | Alias.literal _ => false

/-- The loop of lines 145-170 over `this.commands.entries()`. -/
def noPrefixLoop (host : Host) (m : Message) (msgLower : String) (ctx : ExecContext) :
    List (String × Descriptor) → List Event × Flow
  | [] => ([], Flow.returned Completion.resolved)
  | (key, plugin) :: rest =>
    if !plugin.noPrefix then noPrefixLoop host m msgLower ctx rest
    else if msgLower = host.toLowerCase key then returnExec plugin m ctx
    else if patternAliasMatches plugin.aliases msgLower then returnExec plugin m ctx
    else noPrefixLoop host m msgLower ctx rest

/-- The no-prefix stage, lines 144-170. -/
def noPrefixStage (host : Host) (reg : CommandRegistry) (m : Message) (body : String)
    (isAdmin isOwner : Bool) : List Event × Flow :=
  noPrefixLoop host m (host.toLowerCase body)
    { text := body, args := jsSplitSpace body, isAdmin := isAdmin, isOwner := isOwner }
    reg.commands

/-- Lines 114-119: the flags `(isAdmin, isOwner)`, or `none` when an exception is raised.
A rejected `groupMetadata` promise is turned into `undefined` by `.catch(e => { })`, and
reading `participants` of `undefined` throws. -/
def resolveFlags (host : Host) (g : Globals) (m : Message) (conn : Conn) :
    Option (Bool × Bool) :=
  match conn.decodeJid conn.userId with
  | Outcome.value botNumber =>
    let isOwner :=
      ((botNumber :: g.owner).map fun v => stripNonDigits v ++ "@s.whatsapp.net").contains
        m.sender
    if m.isGroup then
      match conn.groupMetadata m.remoteJid with
      | Outcome.value (some groupMetadata) =>
        some ((host.getGroupAdmins groupMetadata.participants).contains m.sender, isOwner)
      | _ => none
    else some (false, isOwner)
  | _ => none

/-- The body of the `try` block of `handleMessage`, lines 110-170. -/
def tryBlock (host : Host) (g : Globals) (reg : CommandRegistry) (m : Message) (conn : Conn) :
    List Event × Flow :=
  match processEventPlugins reg m conn with
  | (ev, false) => (ev, Flow.threw)
  | (ev, true) =>
    match host.print m with
    | Outcome.throws => (ev ++ [Event.print], Flow.threw)
    | _ =>
      match m.body with
      | none => (ev ++ [Event.print], Flow.returned Completion.resolved)
      | some body =>
        if body = "" then (ev ++ [Event.print], Flow.returned Completion.resolved)
        else
          match resolveFlags host g m conn with
          | none => (ev ++ [Event.print], Flow.threw)
          | some (isAdmin, isOwner) =>
            let stage :=
              if g.prefixRe.test body then prefixStage host g reg m body isAdmin isOwner
              else noPrefixStage host reg m body isAdmin isOwner
            (ev ++ [Event.print] ++ stage.1, stage.2)

/-- The method `handleMessage(m, conn, store, chatUpdate)`; `none` is a null message. -/
def handleMessage (host : Host) (g : Globals) (reg : CommandRegistry) (m : Option Message)
    (conn : Conn) : Dispatch :=
  match m with
  | none => { trace := [], completion := Completion.resolved }
  | some msg =>
    if msg.fromMe then { trace := [], completion := Completion.resolved }
    else
      match tryBlock host g reg msg conn with
      | (tr, Flow.threw) =>
        { trace := tr ++ [Event.errorHandlingMessage], completion := Completion.resolved }
      | (tr, Flow.returned c) => { trace := tr, completion := c }

/-! ## Reading a trace -/

/-- The command bodies invoked in a trace, in order. -/
def execCalls : List Event → List (Descriptor × ExecContext)
  | [] => []
  | Event.exec d ctx :: rest => (d, ctx) :: execCalls rest
  | _ :: rest => execCalls rest

/-- The event handlers invoked in a trace, in order. -/
def mainCalls : List Event → List (Descriptor × EventContext)
  | [] => []
  | Event.main h ctx :: rest => (h, ctx) :: mainCalls rest
  | _ :: rest => mainCalls rest

/-- The number of calls of the fallback case handler in a trace. -/
def caseCalls : List Event → Nat
  | [] => 0
  | Event.caseHandler :: rest => caseCalls rest + 1
  | _ :: rest => caseCalls rest

/-! ## Version comparison (`compareVersions`, `src/lib/update-checker.js`) -/

/-- The numbers that `Number` gives on the strings treated here: `NaN`, a non-negative
integer that a double holds exactly, or `Infinity`. -/
inductive JsNumber where
  | nan
  | int (n : Nat)
  | infinity
  deriving DecidableEq, Repr

/-- The call `s.replace('v', '')`: the first occurrence of `v`, if any, is removed. -/
def removeFirstV : List Char → List Char
  | [] => []
  | c :: cs => if c = 'v' then cs else c :: removeFirstV cs

/-- Worker of `jsSplitDot`: `cur` holds the current component, reversed. -/
def splitDotAux : List Char → List Char → List String
  | [], cur => [⟨cur.reverse⟩]
  | c :: cs, cur =>
    if c = '.' then ⟨cur.reverse⟩ :: splitDotAux cs [] else splitDotAux cs (c :: cur)

/-- The method `s.split('.')`: cut at every dot, empty components are kept. -/
def jsSplitDot (s : List Char) : List String :=
  splitDotAux s []

/-- The integer written by a string of decimal digits. -/
def decimalValue (cs : List Char) : Nat :=
  cs.foldl (fun acc c => 10 * acc + (c.toNat - 48)) 0

/-- The least `s`, counted up from the start value, with `n < 2 ^ (53 + s)`; `fuel` bounds
the number of steps. -/
def findShift : Nat → Nat → Nat → Nat
  | 0, _, s => s
  | fuel + 1, n, s => if n < 2 ^ (53 + s) then s else findShift fuel n (s + 1)

/-- The double nearest to the natural number `n` (round to nearest, ties to even), for an
`n` of at most `bits` binary digits: below `2 ^ 53` the number is held exactly, above it
the low binary digits are rounded away, and from `2 ^ 1024 = 16 ^ 256` on the result is
`Infinity`. -/
def roundToDouble (bits : Nat) (n : Nat) : JsNumber :=
  if n < 2 ^ 53 then JsNumber.int n
  else
    let s := findShift bits n 1
    let q := n / 2 ^ s
    let r := n % 2 ^ s
    let half := 2 ^ (s - 1)
    let m := (if r > half ∨ (r = half ∧ q % 2 = 1) then q + 1 else q) * 2 ^ s
    if m < 16 ^ 256 then JsNumber.int m else JsNumber.infinity

/-- The conversion `Number(s)` on the strings treated here: the empty string gives `0`, a
string of decimal digits gives the nearest double; every other string is taken to `NaN`
(signs, exponents, radix prefixes, surrounding white space and the word `Infinity` are not
treated). -/
def jsNumber (s : String) : JsNumber :=
  if s.data = [] then JsNumber.int 0
  else if s.data.all Char.isDigit then roundToDouble (4 * s.data.length) (decimalValue s.data)
  else JsNumber.nan

/-- The expression `parts[i] || 0`: `undefined`, `NaN` and `0` give `0`. -/
def orZero : Option JsNumber → JsNumber
  | some (JsNumber.int n) => JsNumber.int n
  | some JsNumber.infinity => JsNumber.infinity
  | _ => JsNumber.int 0

/-- The comparison `a > b` of two numbers. -/
def JsNumber.gt : JsNumber → JsNumber → Bool
  | JsNumber.int a, JsNumber.int b => decide (b < a)
  | JsNumber.infinity, JsNumber.int _ => true
  | _, _ => false

/-- The loop of `compareVersions`: `remaining` iterations are left, `i` is the index. -/
def compareLoop (v1Parts v2Parts : List JsNumber) : Nat → Nat → Int
  | 0, _ => 0
  | remaining + 1, i =>
    let v1Part := orZero (v1Parts.get? i)
    let v2Part := orZero (v2Parts.get? i)
    if v1Part.gt v2Part then 1
    else if v2Part.gt v1Part then -1
    else compareLoop v1Parts v2Parts remaining (i + 1)

/-- The parts of a version string: `v.replace('v', '').split('.').map(Number)`. -/
def versionParts (v : String) : List JsNumber :=
  (jsSplitDot (removeFirstV v.data)).map jsNumber

/-- The function `compareVersions(v1, v2)`. -/
def compareVersions (v1 v2 : String) : Int :=
  compareLoop (versionParts v1) (versionParts v2)
    (max (versionParts v1).length (versionParts v2).length) 0

/-! ## Default records of the database (`handler`, lines 221-323) -/

/-- A property value of a user or chat record: `undefined`, `null`, a boolean, a number
other than `NaN` (here an integer), `NaN`, a string, or an object such as `{}`. -/
inductive FieldVal where
  | undefined
  | null
  | bool (b : Bool)
  | num (n : Int)
  | nan
  | str (s : String)
  | object
  deriving DecidableEq, Repr

/-- A record object: its own properties, in insertion order. -/
abbrev Record := List (String × FieldVal)

/-- The own property `key` of a record, `none` when the record has no such property. -/
def recGet : Record → String → Option FieldVal
  | [], _ => none
  | (k, v) :: rest, key => if k = key then some v else recGet rest key

/-- The assignment `record[key] = v`: an existing property gets the new value, a new one
is appended. -/
def recSet : Record → String → FieldVal → Record
  | [], key, v => [(key, v)]
  | (k, w) :: rest, key, v =>
    if k = key then (k, v) :: rest else (k, w) :: recSet rest key v

/-- The helper `isNumber` applied to a property read (`undefined` for a missing property):
`typeof x === 'number' && !isNaN(x)`. -/
def isNumber : Option FieldVal → Bool
  | some (FieldVal.num _) => true
  | _ => false

/-- The condition of one healing statement: `!(key in record)` or `!isNumber(record.key)`. -/
inductive Check where
  | absent (key : String)
  | notNumber (key : String)
  deriving DecidableEq, Repr

/-- The property a condition looks at. -/
def Check.key : Check → String
  | Check.absent key => key
  | Check.notNumber key => key

/-- One healing statement `if (check) record.target = dflt`. -/
structure HealRule where
  check : Check
  target : String
  dflt : FieldVal
  deriving DecidableEq, Repr

/-- Whether the condition of a healing statement holds for a record. -/
def HealRule.fires (rule : HealRule) (r : Record) : Bool :=
  match rule.check with
  | Check.absent key => (recGet r key).isNone
  | Check.notNumber key => !isNumber (recGet r key)

/-- The execution of one healing statement. -/
def applyRule (r : Record) (rule : HealRule) : Record :=
  if rule.fires r then recSet r rule.target rule.dflt else r

/-- The healing statements of a user record, lines 226-231. -/
def userRules : List HealRule :=
  [ { check := Check.absent "banned", target := "banned", dflt := FieldVal.bool false },
    { check := Check.notNumber "bannedDate", target := "bannedDate", dflt := FieldVal.num 0 },
    { check := Check.notNumber "limit", target := "limit", dflt := FieldVal.num 100 },
    { check := Check.absent "premium", target := "premium", dflt := FieldVal.bool false },
    { check := Check.notNumber "premiumDate", target := "premiumDate", dflt := FieldVal.num 0 },
    { check := Check.notNumber "warn", target := "warn", dflt := FieldVal.num 0 } ]

/-- The record of a new user, lines 232-239. -/
def userDefaults : Record :=
  [("banned", FieldVal.bool false), ("bannedDate", FieldVal.num 0), ("limit", FieldVal.num 100),
    ("premium", FieldVal.bool false), ("premiumDate", FieldVal.num 0), ("warn", FieldVal.num 0)]

/-- The healing statements of a chat record, lines 274-300. -/
def chatRules : List HealRule :=
  [ { check := Check.absent "isBanned", target := "isBanned", dflt := FieldVal.bool false },
    { check := Check.absent "welcome", target := "welcome", dflt := FieldVal.bool true },
    { check := Check.absent "autoread", target := "autoread", dflt := FieldVal.bool false },
    { check := Check.absent "detect", target := "detect", dflt := FieldVal.bool false },
    { check := Check.absent "delete", target := "delete", dflt := FieldVal.bool true },
    { check := Check.absent "antiVirtex", target := "antiVirtex", dflt := FieldVal.bool false },
    { check := Check.absent "antiLink", target := "antiLink", dflt := FieldVal.bool false },
    { check := Check.absent "tikauto", target := "tikauto", dflt := FieldVal.bool false },
    { check := Check.absent "captcha", target := "captcha", dflt := FieldVal.bool false },
    { check := Check.absent "antifoto", target := "antiFoto", dflt := FieldVal.bool false },
    { check := Check.absent "antividio", target := "antiVideo", dflt := FieldVal.bool false },
    { check := Check.absent "autoJpm", target := "autoJpm", dflt := FieldVal.bool false },
    { check := Check.absent "antiPorn", target := "antiPorn", dflt := FieldVal.bool false },
    { check := Check.absent "antiBot", target := "antiBot", dflt := FieldVal.bool true },
    { check := Check.absent "antiSpam", target := "antiSpam", dflt := FieldVal.bool false },
    { check := Check.absent "freply", target := "freply", dflt := FieldVal.bool false },
    { check := Check.absent "simi", target := "simi", dflt := FieldVal.bool false },
    { check := Check.absent "ai", target := "ai", dflt := FieldVal.bool false },
    { check := Check.absent "ngetik", target := "ngetik", dflt := FieldVal.bool false },
    { check := Check.absent "autoVn", target := "autoVn", dflt := FieldVal.bool false },
    { check := Check.absent "antiSticker", target := "antiSticker", dflt := FieldVal.bool false },
    { check := Check.absent "stiker", target := "stiker", dflt := FieldVal.bool false },
    { check := Check.absent "antiBadword", target := "antiBadword", dflt := FieldVal.bool false },
    { check := Check.absent "viewonce", target := "viewonce", dflt := FieldVal.bool false },
    { check := Check.absent "useDocument", target := "useDocument", dflt := FieldVal.bool false },
    { check := Check.absent "antiToxic", target := "antiToxic", dflt := FieldVal.bool false },
    { check := Check.notNumber "expired", target := "expired", dflt := FieldVal.num 0 } ]

/-- The record of a new chat, lines 301-323. -/
def chatDefaults : Record :=
  [("isBanned", FieldVal.bool false), ("welcome", FieldVal.bool true),
    ("autoread", FieldVal.bool false), ("simi", FieldVal.bool false),
    ("ai", FieldVal.bool false), ("ngetik", FieldVal.bool false),
    ("autoVn", FieldVal.bool false), ("stiker", FieldVal.bool false),
    ("antiSticker", FieldVal.bool false), ("antiBadword", FieldVal.bool false),
    ("antiSpam", FieldVal.bool false), ("antiBot", FieldVal.bool true),
    ("detect", FieldVal.bool false), ("autoJpm", FieldVal.bool false),
    ("delete", FieldVal.bool true), ("antiLink", FieldVal.bool false),
    ("tikauto", FieldVal.bool false), ("captcha", FieldVal.bool false),
    ("antifoto", FieldVal.bool false), ("antividio", FieldVal.bool false),
    ("antiPorn", FieldVal.bool false)]

/-- The healing of an existing user record, lines 226-231. -/
def healUser (user : Record) : Record :=
  userRules.foldl applyRule user

/-- The healing of an existing chat record, lines 274-300. -/
def healChat (chat : Record) : Record :=
  chatRules.foldl applyRule chat

/-- A value stored in a table of the database: `null`, a value that is not an object
(with its truthiness), or a record object. -/
inductive Entry where
  | null
  | primitive (truthy : Bool)
  | record (r : Record)
  deriving DecidableEq, Repr

/-- A table of the database (`users`, `chats`): an object used as a map from identities
to entries. -/
abbrev Table := List (String × Entry)

/-- The property read `table[key]`, `none` standing for `undefined`. -/
def tableGet : Table → String → Option Entry
  | [], _ => none
  | (k, v) :: rest, key => if k = key then some v else tableGet rest key

/-- The assignment `table[key] = v`. -/
def tableSet : Table → String → Entry → Table
  | [], key, v => [(key, v)]
  | (k, w) :: rest, key, v =>
    if k = key then (k, v) :: rest else (k, w) :: tableSet rest key v

/-- The test `typeof x === 'object'` on a table read. -/
def typeofObject : Option Entry → Bool
  | some Entry.null => true
  | some (Entry.record _) => true
  | _ => false

/-- The user step of `handler`, lines 223-239, on the table `global.db.data.users`: the new
table, and whether the step completes (`false`: the `in` operator throws on a value that
is not an object, and the `catch` clause of `handler` ends the initialisation). -/
def userStep (users : Table) (sender : String) : Table × Bool :=
  let user := tableGet users sender
  let users1 : Table := if typeofObject user then users else []
  match user with
  | some (Entry.record r) => (tableSet users1 sender (Entry.record (healUser r)), true)
  | some (Entry.primitive true) => (users1, false)
  | _ => (tableSet users1 sender (Entry.record userDefaults), true)

/-- The chat step of `handler`, lines 271-323, on the table `global.db.data.chats`. -/
def chatStep (chats : Table) (chat : String) : Table × Bool :=
  let record := tableGet chats chat
  let chats1 : Table :=
    if typeofObject record then chats else tableSet chats chat (Entry.record [])
  match record with
  | some (Entry.record r) => (tableSet chats1 chat (Entry.record (healChat r)), true)
  | some (Entry.primitive true) => (chats1, false)
  | _ => (tableSet chats1 chat (Entry.record chatDefaults), true)

/-- Whether a `Body` property holds a function. -/
def Body.callable {α : Type} : Body α → Bool
  | Body.fn _ => true
  | _ => false

/-- Whether a command-table entry matches an un-prefixed body in the sense of lines
146-168: its descriptor is marked `noPrefix`, and the lowercased body equals the lowercased
key or is matched by one of the descriptor's pattern aliases. -/
def entryMatches (host : Host) (msgLower : String) (e : String × Descriptor) : Bool :=
  e.2.noPrefix &&
    (decide (msgLower = host.toLowerCase e.1) || patternAliasMatches e.2.aliases msgLower)

/-- The specification's wording of a match in the no-prefix stage: the entry's descriptor
is marked `noPrefix`, and the lowercased body equals the lowercased key, or some pattern
among the descriptor's aliases accepts the lowercased body. -/
def structurallyMatches (host : Host) (msgLower : String) (e : String × Descriptor) : Prop :=
  e.2.noPrefix = true ∧
    (msgLower = host.toLowerCase e.1 ∨
      ∃ al re, e.2.aliases = some al ∧ Alias.pattern re ∈ al ∧ re.test msgLower = true)

/-- The registry without its event handlers. -/
def withoutEventHandlers (reg : CommandRegistry) : CommandRegistry :=
  { reg with eventHandlers := [] }

/-- The string entries of `plugin.run.alias`, in order. -/
def literalAliases (d : Descriptor) : List String :=
  match d.aliases with
  | none => []
  | some al =>
    al.filterMap fun a =>
      match a with
      | Alias.literal s => some s
      | Alias.pattern _ => none

/-! ## The specification's wording of the version order -/

/-- The characters of the components joined by dots. -/
def joinDots : List String → List Char
  | [] => []
  | [c] => c.data
  | c :: d :: rest => c.data ++ '.' :: joinDots (d :: rest)

/-- A version string: the components joined by dots, after an optional leading `v`. -/
def versionString (lead : Bool) (cs : List String) : String :=
  ⟨(if lead then ['v'] else []) ++ joinDots cs⟩

/-- A non-empty string of decimal digits. -/
def isDigits (c : String) : Bool :=
  !c.data.isEmpty && c.data.all Char.isDigit

/-- The integers written by the components. -/
def componentValues (cs : List String) : List Nat :=
  cs.map fun c => decimalValue c.data

/-- The components of a version extended to `n` components, a missing component counting
as `0`. -/
def padZeros (xs : List Nat) (n : Nat) : List Nat :=
  xs ++ List.replicate (n - xs.length) 0

/-- The order of versions: component by component from the left, as numbers, a missing
component counting as `0`; that is, the lexicographic order of the padded components. -/
def versionLt (xs ys : List Nat) : Prop :=
  List.Lex (· < ·) (padZeros xs (max xs.length ys.length))
    (padZeros ys (max xs.length ys.length))

/-- Equality of versions: the same components, a missing component counting as `0`. -/
def versionEq (xs ys : List Nat) : Prop :=
  padZeros xs (max xs.length ys.length) = padZeros ys (max xs.length ys.length)

instance (xs ys : List Nat) : Decidable (versionLt xs ys) := by
  unfold versionLt
  infer_instance

instance (xs ys : List Nat) : Decidable (versionEq xs ys) := by
  unfold versionEq
  infer_instance

/-- The comparison of two lists of numbers from the left, as a number `1`, `-1` or `0`. -/
def lexCompare : List Nat → List Nat → Int
  | a :: as, b :: bs => if b < a then 1 else if a < b then -1 else lexCompare as bs
  | _, _ => 0

/-! ## The specification's wording of the prefix stage -/

/-- The prefix stage as the specification words it: the prefix (the one character matched
by the prefix pattern) is stripped, the rest is cut into tokens, the first token
lowercased is the trigger key, the remaining tokens are the arguments and their rejoin
with single spaces is the trailing text. -/
def specParseCommand (host : Host) (body : String) : Option Parsed :=
  match jsSplitSpace (jsTrim (jsSlice body (some 1))) with
  | [] => none
  | first :: args =>
    some { command := host.toLowerCase first, args := args, text := jsJoinSpace args }

/-! ## Concrete data: the example plugin and a small environment -/

/-- Lower-casing of the ASCII letters; it agrees with `toLowerCase` on ASCII strings. -/
def asciiLower (s : String) : String :=
  ⟨s.data.map Char.toLower⟩

/-- A host whose `print` returns and whose `toLowerCase` is `asciiLower`. -/
def sampleHost : Host :=
  { toLowerCase := asciiLower,
    getGroupAdmins := fun _ => [],
    print := fun _ => Outcome.value () }

/-- The globals obtained with the option `--prefix /` and no configured owner. -/
def slashGlobals : Globals :=
  { prefixRe := globalPrefix (some "/"), owner := [] }

/-- A registry into which nothing has been loaded. -/
def emptyRegistry : CommandRegistry :=
  { commands := [], eventHandlers := [], caseHandler := Body.missing }

/-- The example plugin `src/playground/plugins/test/test.js`; its `exec` is taken to
fulfil, and `/^ping$/i` accepts exactly the strings equal to `ping` up to ASCII case. -/
def pingPlugin : Descriptor :=
  { name := some "Ping",
    aliases := some [Alias.literal "p", Alias.literal "pong",
      Alias.pattern { test := fun s => asciiLower s == "ping" }],
    noPrefix := true,
    exec := Body.fn fun _ _ => Outcome.value (),
    main := Body.missing }

/-- The example plugin with an `exec` whose promise rejects (a reply that fails). -/
def rejectingPing : Descriptor :=
  { pingPlugin with exec := Body.fn fun _ _ => Outcome.rejects }

/-- The example plugin with an `exec` that throws synchronously. -/
def throwingPing : Descriptor :=
  { pingPlugin with exec := Body.fn fun _ _ => Outcome.throws }

/-- A `noPrefix` command named `Ping` without aliases. -/
def upperPing : Descriptor :=
  { name := some "Ping", aliases := none, noPrefix := true,
    exec := Body.fn fun _ _ => Outcome.value (), main := Body.missing }

/-- A `noPrefix` command named `ping` without aliases. -/
def lowerPing : Descriptor :=
  { name := some "ping", aliases := none, noPrefix := true,
    exec := Body.fn fun _ _ => Outcome.value (), main := Body.missing }

/-- An event handler whose `main` fulfils. -/
def observer : Descriptor :=
  { name := none, aliases := none, noPrefix := false,
    exec := Body.missing, main := Body.fn fun _ _ => Outcome.value () }

/-- An event handler whose `main` throws. -/
def failingObserver : Descriptor :=
  { name := none, aliases := none, noPrefix := false,
    exec := Body.missing, main := Body.fn fun _ _ => Outcome.throws }

/-- An event handler whose `main` returns a promise that rejects. -/
def rejectingObserver : Descriptor :=
  { name := none, aliases := none, noPrefix := false,
    exec := Body.missing, main := Body.fn fun _ _ => Outcome.rejects }

/-- The registry after loading the plugin file `test.js` with export `run`. -/
def registryOf (run : Descriptor) : CommandRegistry :=
  loadPluginFile emptyRegistry "test.js" (some { run := some run })

/-- A `noPrefix` unit that declares the name `ping` and no `exec`. -/
def bodylessPing : Descriptor :=
  { name := some "ping", aliases := none, noPrefix := true,
    exec := Body.missing, main := Body.missing }

/-- The registry after loading `bodylessPing` and then the example plugin. -/
def bodylessFirstRegistry : CommandRegistry :=
  loadPluginFile (loadPluginFile emptyRegistry "broken.js" (some { run := some bodylessPing }))
    "test.js" (some { run := some pingPlugin })

/-- The registry after loading `upperPing` and then `lowerPing`. -/
def twoPingRegistry : CommandRegistry :=
  loadPluginFile (registryOf upperPing) "ping.js" (some { run := some lowerPing })

/-- A registry with a fallback case handler that fulfils. -/
def withCaseHandler (reg : CommandRegistry) : CommandRegistry :=
  { reg with caseHandler := Body.fn fun _ => Outcome.value () }

/-- A message from another user in a private chat. -/
def directMessage (body : Option String) : Message :=
  { fromMe := false, body := body, isGroup := false,
    sender := "111@s.whatsapp.net", chat := "111@s.whatsapp.net",
    remoteJid := "111@s.whatsapp.net" }

/-- A message sent by the bot account itself, without body. -/
def ownMessage : Message :=
  { fromMe := true, body := none, isGroup := false,
    sender := "999@s.whatsapp.net", chat := "111@s.whatsapp.net",
    remoteJid := "111@s.whatsapp.net" }

/-- A message from another user in a group. -/
def groupMessage (body : Option String) : Message :=
  { fromMe := false, body := body, isGroup := true,
    sender := "111@s.whatsapp.net", chat := "555@g.us", remoteJid := "555@g.us" }

/-- A connection on which every group metadata fetch fails with a rejected promise. -/
def sampleConn : Conn :=
  { userId := "999:1@s.whatsapp.net",
    decodeJid := fun _ => Outcome.value "999@s.whatsapp.net",
    groupMetadata := fun _ => Outcome.rejects }

/-- A connection on which every group metadata fetch gives a roster that lists the sender
`111@s.whatsapp.net` with rank `admin` and does not list the bot. -/
def rosterConn : Conn :=
  { userId := "999:1@s.whatsapp.net",
    decodeJid := fun _ => Outcome.value "999@s.whatsapp.net",
    groupMetadata := fun _ =>
      Outcome.value (some { participants :=
        [{ id := "111@s.whatsapp.net", admin := AdminField.rank "admin" }] }) }

/-- The context a command receives for the un-prefixed body `ping` in a private chat. -/
def pingContext : ExecContext :=
  { text := "ping", args := ["ping"], isAdmin := false, isOwner := false }

/-- A unit that declares the name `broken` and no `exec`. -/
def bodylessCommand : Descriptor :=
  { name := some "broken", aliases := none, noPrefix := false,
    exec := Body.missing, main := Body.missing }

/-- A unit whose `main` is a truthy value that is not a function. -/
def stringMainUnit : Descriptor :=
  { name := none, aliases := none, noPrefix := false,
    exec := Body.missing, main := Body.notCallable }

/-- A group message from a sender that the roster of `rosterConn` does not list. -/
def strangerMessage (body : Option String) : Message :=
  { fromMe := false, body := body, isGroup := true,
    sender := "333@s.whatsapp.net", chat := "555@g.us", remoteJid := "555@g.us" }

/-- The globals obtained with the option `--prefix /` and one configured owner. -/
def ownerGlobals : Globals :=
  { prefixRe := globalPrefix (some "/"), owner := ["+1 (11)"] }

/-- The record of a user with a premium flag and a reduced limit. -/
def premiumUser : Record :=
  [("banned", FieldVal.bool false), ("bannedDate", FieldVal.num 0), ("limit", FieldVal.num 5),
    ("premium", FieldVal.bool true), ("premiumDate", FieldVal.num 1800000000000),
    ("warn", FieldVal.num 2)]

/-- A users table that holds the record of `222@s.whatsapp.net` only. -/
def usersBefore : Table :=
  [("222@s.whatsapp.net", Entry.record premiumUser)]

/-- A chats table that holds the record of `222@g.us` only. -/
def chatsBefore : Table :=
  [("222@g.us", Entry.record chatDefaults)]

/-- A chat record in which the welcome message is switched off, `antiFoto` and `antiVideo`
are switched on and `expired` holds a string. -/
def tunedChat : Record :=
  [("welcome", FieldVal.bool false), ("antiFoto", FieldVal.bool true),
    ("antiVideo", FieldVal.bool true), ("expired", FieldVal.str "never")]

/-! ## Reading traces: basic facts -/

theorem execCalls_append (xs ys : List Event) :
    execCalls (xs ++ ys) = execCalls xs ++ execCalls ys := by
  induction xs with
  | nil => rfl
  | cons e es ih => cases e <;> simp [execCalls, ih]

theorem mainCalls_append (xs ys : List Event) :
    mainCalls (xs ++ ys) = mainCalls xs ++ mainCalls ys := by
  induction xs with
  | nil => rfl
  | cons e es ih => cases e <;> simp [mainCalls, ih]

theorem caseCalls_append (xs ys : List Event) :
    caseCalls (xs ++ ys) = caseCalls xs + caseCalls ys := by
  induction xs with
  | nil => simp [caseCalls]
  | cons e es ih => cases e <;> simp [caseCalls, ih]; omega

theorem execCalls_runEventHandlers (m : Message) (ctx : EventContext) (hs : List Descriptor) :
    execCalls (runEventHandlers m ctx hs) = [] := by
  induction hs with
  | nil => rfl
  | cons h rest ih =>
    simp only [runEventHandlers, execCalls_append, ih, List.append_nil]
    cases h.main with
    | missing => rfl
    | notCallable => rfl
    | fn f => dsimp only; cases f m ctx <;> rfl

theorem caseCalls_runEventHandlers (m : Message) (ctx : EventContext) (hs : List Descriptor) :
    caseCalls (runEventHandlers m ctx hs) = 0 := by
  induction hs with
  | nil => rfl
  | cons h rest ih =>
    simp only [runEventHandlers, caseCalls_append, ih, Nat.add_zero]
    cases h.main with
    | missing => rfl
    | notCallable => rfl
    | fn f => dsimp only; cases f m ctx <;> rfl

theorem execCalls_returnExec_length (plugin : Descriptor) (m : Message) (ctx : ExecContext) :
    (execCalls (returnExec plugin m ctx).1).length ≤ 1 := by
  unfold returnExec
  cases plugin.exec <;> simp [execCalls]

theorem execCalls_returnCase (reg : CommandRegistry) (m : Message) :
    execCalls (returnCase reg m).1 = [] := by
  unfold returnCase
  cases reg.caseHandler <;> simp [execCalls]

theorem execCalls_prefixStage_length (host : Host) (g : Globals) (reg : CommandRegistry)
    (m : Message) (body : String) (isAdmin isOwner : Bool) :
    (execCalls (prefixStage host g reg m body isAdmin isOwner).1).length ≤ 1 := by
  unfold prefixStage
  cases parseCommand host g body with
  | none => simp [execCalls]
  | some p =>
    simp only
    split
    · cases mapGet reg.commands p.command with
      | none => simp [execCalls]
      | some plugin => exact execCalls_returnExec_length _ _ _
    · simp [execCalls_returnCase]

theorem execCalls_noPrefixLoop_length (host : Host) (m : Message) (msgLower : String)
    (ctx : ExecContext) (t : List (String × Descriptor)) :
    (execCalls (noPrefixLoop host m msgLower ctx t).1).length ≤ 1 := by
  induction t with
  | nil => simp [noPrefixLoop, execCalls]
  | cons e rest ih =>
    obtain ⟨key, plugin⟩ := e
    unfold noPrefixLoop
    split
    · exact ih
    · split
      · exact execCalls_returnExec_length _ _ _
      · split
        · exact execCalls_returnExec_length _ _ _
        · exact ih

theorem execCalls_processEventPlugins (reg : CommandRegistry) (m : Message) (conn : Conn) :
    execCalls (processEventPlugins reg m conn).1 = [] := by
  unfold processEventPlugins
  split
  · split <;> simp [execCalls, execCalls_runEventHandlers]
  · simp [execCalls_runEventHandlers]

theorem execCalls_tryBlock_length (host : Host) (g : Globals) (reg : CommandRegistry)
    (m : Message) (conn : Conn) :
    (execCalls (tryBlock host g reg m conn).1).length ≤ 1 := by
  have hev := execCalls_processEventPlugins reg m conn
  unfold tryBlock
  split
  · next ev heq => rw [heq] at hev; simp at hev; simp [hev]
  · next ev heq =>
    rw [heq] at hev
    simp only at hev
    split
    · simp [execCalls_append, hev, execCalls]
    · split
      · simp [execCalls_append, hev, execCalls]
      · split
        · simp [execCalls_append, hev, execCalls]
        · split
          · simp [execCalls_append, hev, execCalls]
          · simp only [execCalls_append, hev, execCalls, List.nil_append]
            split
            · exact execCalls_prefixStage_length _ _ _ _ _ _ _
            · exact execCalls_noPrefixLoop_length _ _ _ _ _

theorem mainCalls_runEventHandlers (m : Message) (ctx : EventContext) (hs : List Descriptor) :
    mainCalls (runEventHandlers m ctx hs) =
      (hs.filter fun h => h.main.callable).map fun h => (h, ctx) := by
  induction hs with
  | nil => rfl
  | cons h rest ih =>
    simp only [runEventHandlers, mainCalls_append, ih, List.filter_cons]
    cases hm : h.main with
    | missing => simp [mainCalls, Body.callable]
    | notCallable => simp [mainCalls, Body.callable]
    | fn f => dsimp only; cases f m ctx <;> simp [mainCalls, Body.callable]

theorem noPrefixLoop_eq_find (host : Host) (m : Message) (msgLower : String)
    (ctx : ExecContext) (t : List (String × Descriptor)) :
    noPrefixLoop host m msgLower ctx t =
      match t.find? (entryMatches host msgLower) with
      | some e => returnExec e.2 m ctx
      | none => ([], Flow.returned Completion.resolved) := by
  induction t with
  | nil => rfl
  | cons e rest ih =>
    obtain ⟨key, plugin⟩ := e
    unfold noPrefixLoop
    by_cases hnp : plugin.noPrefix = true
    · by_cases hk : msgLower = host.toLowerCase key
      · simp [List.find?, entryMatches, hnp, hk]
      · by_cases hp : patternAliasMatches plugin.aliases msgLower = true
        · simp [List.find?, entryMatches, hnp, hk, hp]
        · simp [List.find?, entryMatches, hnp, hk, hp, ih]
    · simp [List.find?, entryMatches, hnp, ih]

theorem execCalls_returnExec_callable (plugin : Descriptor) (m : Message) (ctx : ExecContext)
    (h : plugin.exec.callable = true) :
    execCalls (returnExec plugin m ctx).1 = [(plugin, ctx)] := by
  unfold returnExec
  cases hx : plugin.exec with
  | missing => simp [hx, Body.callable] at h
  | notCallable => simp [hx, Body.callable] at h
  | fn f => simp [execCalls]

theorem find_unique_split {α : Type} (p : α → Bool) (l pre post : List α) (a : α)
    (hl : l = pre ++ a :: post) (hpre : ∀ x ∈ pre, p x = false) (ha : p a = true) :
    l.find? p = some a := by
  subst hl
  induction pre with
  | nil => simp [List.find?, ha]
  | cons x xs ih =>
    have hx : p x = false := hpre x (List.mem_cons_self _ _)
    simp only [List.cons_append, List.find?, hx]
    exact ih fun y hy => hpre y (List.mem_cons_of_mem _ hy)

theorem tryBlock_stage (host : Host) (g : Globals) (reg : CommandRegistry) (msg : Message)
    (conn : Conn) (body : String) (isAdmin isOwner : Bool)
    (hbody : msg.body = some body) (hne : body ≠ "")
    (hev : (processEventPlugins reg msg conn).2 = true)
    (hprint : host.print msg ≠ Outcome.throws)
    (hflags : resolveFlags host g msg conn = some (isAdmin, isOwner)) :
    tryBlock host g reg msg conn =
      ((processEventPlugins reg msg conn).1 ++ [Event.print] ++
          (if g.prefixRe.test body then prefixStage host g reg msg body isAdmin isOwner
            else noPrefixStage host reg msg body isAdmin isOwner).1,
        (if g.prefixRe.test body then prefixStage host g reg msg body isAdmin isOwner
            else noPrefixStage host reg msg body isAdmin isOwner).2) := by
  unfold tryBlock
  rcases hp : processEventPlugins reg msg conn with ⟨ev, ok⟩
  rw [hp] at hev
  simp only at hev
  subst hev
  simp only
  cases hpr : host.print msg with
  | throws => exact absurd hpr hprint
  | value a => simp [hbody, hne, hflags]
  | rejects => simp [hbody, hne, hflags]

theorem processEventPlugins_cases (reg : CommandRegistry) (msg : Message) (conn : Conn) :
    processEventPlugins reg msg conn = ([], false) ∨
    ∃ ctx, processEventPlugins reg msg conn =
      (runEventHandlers msg ctx reg.eventHandlers, true) := by
  unfold processEventPlugins
  split
  · split
    · exact Or.inr ⟨_, rfl⟩
    · exact Or.inl rfl
  · exact Or.inr ⟨_, rfl⟩

theorem processEventPlugins_of_roster (reg : CommandRegistry) (msg : Message) (conn : Conn)
    (hroster : msg.isGroup = true →
      ∃ gm, conn.groupMetadata msg.chat = Outcome.value (some gm)) :
    ∃ ctx, processEventPlugins reg msg conn =
      (runEventHandlers msg ctx reg.eventHandlers, true) := by
  unfold processEventPlugins
  by_cases hg : msg.isGroup = true
  · obtain ⟨gm, hgm⟩ := hroster hg
    simp only [hg, if_true, hgm]
    exact ⟨_, rfl⟩
  · simp only [hg]
    exact ⟨_, rfl⟩

theorem caseCalls_processEventPlugins (reg : CommandRegistry) (m : Message) (conn : Conn) :
    caseCalls (processEventPlugins reg m conn).1 = 0 := by
  rcases processEventPlugins_cases reg m conn with h | ⟨ctx, h⟩
  · rw [h]; rfl
  · rw [h]; exact caseCalls_runEventHandlers _ _ _

theorem mainCalls_returnExec (plugin : Descriptor) (m : Message) (ctx : ExecContext) :
    mainCalls (returnExec plugin m ctx).1 = [] := by
  unfold returnExec
  cases plugin.exec <;> simp [mainCalls]

theorem mainCalls_returnCase (reg : CommandRegistry) (m : Message) :
    mainCalls (returnCase reg m).1 = [] := by
  unfold returnCase
  cases reg.caseHandler <;> simp [mainCalls]

theorem mainCalls_prefixStage (host : Host) (g : Globals) (reg : CommandRegistry)
    (m : Message) (body : String) (isAdmin isOwner : Bool) :
    mainCalls (prefixStage host g reg m body isAdmin isOwner).1 = [] := by
  unfold prefixStage
  cases parseCommand host g body with
  | none => simp [mainCalls]
  | some p =>
    simp only
    split
    · cases mapGet reg.commands p.command with
      | none => simp [mainCalls]
      | some plugin => exact mainCalls_returnExec _ _ _
    · exact mainCalls_returnCase _ _

theorem mainCalls_noPrefixStage (host : Host) (reg : CommandRegistry) (m : Message)
    (body : String) (isAdmin isOwner : Bool) :
    mainCalls (noPrefixStage host reg m body isAdmin isOwner).1 = [] := by
  unfold noPrefixStage
  rw [noPrefixLoop_eq_find]
  split
  · exact mainCalls_returnExec _ _ _
  · rfl

theorem mainCalls_tryBlock (host : Host) (g : Globals) (reg : CommandRegistry)
    (m : Message) (conn : Conn) :
    mainCalls (tryBlock host g reg m conn).1 = mainCalls (processEventPlugins reg m conn).1 := by
  unfold tryBlock
  rcases processEventPlugins reg m conn with ⟨ev, ok⟩
  cases ok with
  | false => rfl
  | true =>
    simp only
    split
    · simp [mainCalls_append, mainCalls]
    · split
      · simp [mainCalls_append, mainCalls]
      · split
        · simp [mainCalls_append, mainCalls]
        · split
          · simp [mainCalls_append, mainCalls]
          · simp only [mainCalls_append, mainCalls, List.append_nil]
            split
            · simp [mainCalls_prefixStage]
            · simp [mainCalls_noPrefixStage]

theorem mainCalls_handleMessage (host : Host) (g : Globals) (reg : CommandRegistry)
    (msg : Message) (conn : Conn) (hme : msg.fromMe = false) :
    mainCalls (handleMessage host g reg (some msg) conn).trace =
      mainCalls (processEventPlugins reg msg conn).1 := by
  have h := mainCalls_tryBlock host g reg msg conn
  unfold handleMessage
  simp only [hme, Bool.false_eq_true, if_false]
  split
  · next tr heq => rw [heq] at h; simpa [mainCalls_append, mainCalls] using h
  · next tr c heq => rw [heq] at h; simpa using h

theorem handleMessage_stage (host : Host) (g : Globals) (reg : CommandRegistry)
    (msg : Message) (conn : Conn) (body : String) (isAdmin isOwner : Bool)
    (hme : msg.fromMe = false) (hbody : msg.body = some body) (hne : body ≠ "")
    (hev : (processEventPlugins reg msg conn).2 = true)
    (hprint : host.print msg ≠ Outcome.throws)
    (hflags : resolveFlags host g msg conn = some (isAdmin, isOwner)) :
    execCalls (handleMessage host g reg (some msg) conn).trace =
        execCalls (if g.prefixRe.test body then prefixStage host g reg msg body isAdmin isOwner
            else noPrefixStage host reg msg body isAdmin isOwner).1 ∧
    caseCalls (handleMessage host g reg (some msg) conn).trace =
        caseCalls (if g.prefixRe.test body then prefixStage host g reg msg body isAdmin isOwner
            else noPrefixStage host reg msg body isAdmin isOwner).1 := by
  have hx := execCalls_processEventPlugins reg msg conn
  have hc := caseCalls_processEventPlugins reg msg conn
  unfold handleMessage
  simp only [hme, Bool.false_eq_true, if_false]
  rw [tryBlock_stage host g reg msg conn body isAdmin isOwner hbody hne hev hprint hflags]
  split
  · next tr heq =>
    simp only [Prod.mk.injEq] at heq
    rw [← heq.1]
    simp [execCalls_append, caseCalls_append, hx, hc, execCalls, caseCalls]
  · next tr c heq =>
    simp only [Prod.mk.injEq] at heq
    rw [← heq.1]
    simp [execCalls_append, caseCalls_append, hx, hc, execCalls, caseCalls]

theorem runEventHandlers_logs (m : Message) (ctx : EventContext) (hs : List Descriptor)
    (h : Descriptor) (f : Message → EventContext → Outcome Unit) (hmem : h ∈ hs)
    (hfn : h.main = Body.fn f)
    (hfail : f m ctx = Outcome.throws ∨ f m ctx = Outcome.rejects) :
    Event.errorInEventPlugin ∈ runEventHandlers m ctx hs := by
  induction hs with
  | nil => cases hmem
  | cons x rest ih =>
    unfold runEventHandlers
    rcases List.mem_cons.mp hmem with hx | hx
    · subst hx
      apply List.mem_append_left
      rw [hfn]
      rcases hfail with hf | hf <;> simp [hf]
    · exact List.mem_append_right _ (ih hx)

theorem tryBlock_events (host : Host) (g : Globals) (reg : CommandRegistry)
    (m : Message) (conn : Conn) :
    ∃ rest, (tryBlock host g reg m conn).1 = (processEventPlugins reg m conn).1 ++ rest := by
  unfold tryBlock
  rcases processEventPlugins reg m conn with ⟨ev, ok⟩
  cases ok with
  | false => exact ⟨[], by simp⟩
  | true =>
    simp only
    split
    · exact ⟨_, rfl⟩
    · split
      · exact ⟨_, rfl⟩
      · split
        · exact ⟨_, rfl⟩
        · split
          · exact ⟨_, rfl⟩
          · exact ⟨_, List.append_assoc _ _ _⟩

theorem handleMessage_events (host : Host) (g : Globals) (reg : CommandRegistry)
    (msg : Message) (conn : Conn) (hme : msg.fromMe = false) (e : Event)
    (he : e ∈ (processEventPlugins reg msg conn).1) :
    e ∈ (handleMessage host g reg (some msg) conn).trace := by
  obtain ⟨rest, hrest⟩ := tryBlock_events host g reg msg conn
  unfold handleMessage
  simp only [hme, Bool.false_eq_true, if_false]
  split
  · next tr heq =>
    rw [heq] at hrest
    simp only at hrest
    subst hrest
    simp [he]
  · next tr c heq =>
    rw [heq] at hrest
    simp only at hrest
    subst hrest
    simp [he]

/-! ## The command table and the prefix stage -/

theorem mapGet_mem (t : List (String × Descriptor)) (key : String) (d : Descriptor)
    (h : mapGet t key = some d) : (key, d) ∈ t := by
  induction t with
  | nil => simp [mapGet] at h
  | cons e rest ih =>
    obtain ⟨k, v⟩ := e
    unfold mapGet at h
    by_cases hk : k = key
    · simp only [hk, if_true, Option.some.injEq] at h
      subst hk
      subst h
      exact List.mem_cons_self _ _
    · simp only [hk, if_false] at h
      exact List.mem_cons_of_mem _ (ih h)

theorem execCalls_returnExec_mem (plugin : Descriptor) (m : Message) (ctx : ExecContext)
    (d : Descriptor) (c : ExecContext) (h : (d, c) ∈ execCalls (returnExec plugin m ctx).1) :
    d = plugin := by
  unfold returnExec at h
  cases hx : plugin.exec with
  | missing => simp [hx, execCalls] at h
  | notCallable => simp [hx, execCalls] at h
  | fn f =>
    simp only [hx, execCalls, List.mem_singleton, Prod.mk.injEq] at h
    exact h.1

theorem execCalls_prefixStage_mem (host : Host) (g : Globals) (reg : CommandRegistry)
    (m : Message) (body : String) (isAdmin isOwner : Bool) (d : Descriptor) (c : ExecContext)
    (h : (d, c) ∈ execCalls (prefixStage host g reg m body isAdmin isOwner).1) :
    ∃ token, (host.toLowerCase token, d) ∈ reg.commands := by
  unfold prefixStage at h
  unfold parseCommand at h
  cases hs : jsSplitSpace (jsTrim (jsSlice body g.prefixRe.length)) with
  | nil => simp [hs, execCalls] at h
  | cons first args =>
    simp only [hs] at h
    split at h
    · cases hg : mapGet reg.commands (host.toLowerCase first) with
      | none => simp [hg, execCalls] at h
      | some plugin =>
        simp only [hg] at h
        have hd := execCalls_returnExec_mem _ _ _ _ _ h
        subst hd
        exact ⟨first, mapGet_mem _ _ _ hg⟩
    · simp [execCalls_returnCase] at h

theorem execCalls_handleMessage_mem (host : Host) (g : Globals) (reg : CommandRegistry)
    (msg : Message) (conn : Conn) (d : Descriptor) (c : ExecContext)
    (h : (d, c) ∈ execCalls (handleMessage host g reg (some msg) conn).trace) :
    ∃ body isAdmin isOwner, msg.body = some body ∧
      (d, c) ∈ execCalls
        (if g.prefixRe.test body then prefixStage host g reg msg body isAdmin isOwner
          else noPrefixStage host reg msg body isAdmin isOwner).1 := by
  have hx := execCalls_processEventPlugins reg msg conn
  unfold handleMessage at h
  by_cases hme : msg.fromMe = true
  · simp [hme, execCalls] at h
  · simp only [hme, Bool.false_eq_true, if_false] at h
    have key : (d, c) ∈ execCalls (tryBlock host g reg msg conn).1 := by
      split at h
      · next tr heq =>
        rw [heq]
        simpa [execCalls_append, execCalls] using h
      · next tr cpl heq =>
        rw [heq]
        simpa using h
    clear h
    unfold tryBlock at key
    rcases hp : processEventPlugins reg msg conn with ⟨ev, ok⟩
    rw [hp] at hx key
    simp only at hx
    cases ok with
    | false => simp [hx] at key
    | true =>
      simp only at key
      cases hpr : host.print msg with
      | throws => simp [hpr, execCalls_append, hx, execCalls] at key
      | value a =>
        cases hb : msg.body with
        | none => simp [hpr, hb, execCalls_append, hx, execCalls] at key
        | some body =>
          by_cases hne : body = ""
          · simp [hpr, hb, hne, execCalls_append, hx, execCalls] at key
          · cases hf : resolveFlags host g msg conn with
            | none => simp [hpr, hb, hne, hf, execCalls_append, hx, execCalls] at key
            | some flags =>
              obtain ⟨isAdmin, isOwner⟩ := flags
              simp only [hpr, hb, hne, hf, if_false, execCalls_append, hx, execCalls,
                List.nil_append] at key
              exact ⟨body, isAdmin, isOwner, rfl, key⟩
      | rejects =>
        cases hb : msg.body with
        | none => simp [hpr, hb, execCalls_append, hx, execCalls] at key
        | some body =>
          by_cases hne : body = ""
          · simp [hpr, hb, hne, execCalls_append, hx, execCalls] at key
          · cases hf : resolveFlags host g msg conn with
            | none => simp [hpr, hb, hne, hf, execCalls_append, hx, execCalls] at key
            | some flags =>
              obtain ⟨isAdmin, isOwner⟩ := flags
              simp only [hpr, hb, hne, hf, if_false, execCalls_append, hx, execCalls,
                List.nil_append] at key
              exact ⟨body, isAdmin, isOwner, rfl, key⟩

theorem toLower_not_upper (c : Char) : (Char.toLower c).isUpper = false := by
  unfold Char.toLower
  by_cases h : c.toNat ≥ 65 ∧ c.toNat ≤ 90
  · simp only [h, and_self, if_true]
    obtain ⟨h1, h2⟩ := h
    generalize c.toNat = n at h1 h2
    interval_cases n <;> rfl
  · simp only [h, if_false]
    simp only [Char.isUpper, Bool.and_eq_false_imp, decide_eq_true_eq, decide_eq_false_iff_not]
    intro h1 h2
    apply h
    exact ⟨h1, h2⟩

theorem asciiLower_no_upper (s : String) (c : Char) (h : c ∈ (asciiLower s).data) :
    c.isUpper = false := by
  unfold asciiLower at h
  simp only [List.mem_map] at h
  obtain ⟨c', _, hc⟩ := h
  rw [← hc]
  exact toLower_not_upper c'

/-! ## The loader -/

theorem mapGet_mapSet_self (t : List (String × Descriptor)) (key : String) (v : Descriptor) :
    mapGet (mapSet t key v) key = some v := by
  induction t with
  | nil => simp [mapSet, mapGet]
  | cons e rest ih =>
    obtain ⟨k, d⟩ := e
    unfold mapSet
    by_cases hk : k = key
    · simp [hk, mapGet]
    · simp [hk, mapGet, ih]

theorem mapGet_mapSet_other (t : List (String × Descriptor)) (key key' : String)
    (v : Descriptor) (h : key' ≠ key) :
    mapGet (mapSet t key v) key' = mapGet t key' := by
  induction t with
  | nil => simp [mapSet, mapGet, Ne.symm h]
  | cons e rest ih =>
    obtain ⟨k, d⟩ := e
    unfold mapSet
    by_cases hk : k = key
    · subst hk
      simp [mapGet, Ne.symm h]
    · by_cases hk' : k = key'
      · subst hk'
        simp [hk, mapGet]
      · simp [hk, hk', mapGet, ih]

theorem mapGet_setAliases_other (cmds : List (String × Descriptor)) (run : Descriptor)
    (al : List Alias) (key : String) (h : Alias.literal key ∉ al) :
    mapGet (setAliases cmds run al) key = mapGet cmds key := by
  induction al generalizing cmds with
  | nil => rfl
  | cons a rest ih =>
    have hrest : Alias.literal key ∉ rest := fun hm => h (List.mem_cons_of_mem _ hm)
    cases a with
    | pattern re => exact ih cmds hrest
    | literal s =>
      have hne : key ≠ s := by
        intro hs
        apply h
        rw [hs]
        exact List.mem_cons_self _ _
      unfold setAliases
      rw [ih _ hrest, mapGet_mapSet_other _ _ _ _ hne]

theorem mapGet_setAliases_keep (cmds : List (String × Descriptor)) (run : Descriptor)
    (al : List Alias) (key : String) (h : mapGet cmds key = some run) :
    mapGet (setAliases cmds run al) key = some run := by
  induction al generalizing cmds with
  | nil => exact h
  | cons a rest ih =>
    cases a with
    | pattern re => exact ih cmds h
    | literal s =>
      unfold setAliases
      apply ih
      by_cases hs : key = s
      · rw [hs]; exact mapGet_mapSet_self _ _ _
      · rw [mapGet_mapSet_other _ _ _ _ hs]; exact h

theorem mapGet_setAliases_literal (cmds : List (String × Descriptor)) (run : Descriptor)
    (al : List Alias) (key : String) (h : Alias.literal key ∈ al) :
    mapGet (setAliases cmds run al) key = some run := by
  induction al generalizing cmds with
  | nil => cases h
  | cons a rest ih =>
    cases a with
    | pattern re =>
      rcases List.mem_cons.mp h with hh | hh
      · cases hh
      · exact ih cmds hh
    | literal s =>
      unfold setAliases
      by_cases hs : key = s
      · apply mapGet_setAliases_keep
        rw [hs]
        exact mapGet_mapSet_self _ _ _
      · rcases List.mem_cons.mp h with hh | hh
        · exact absurd (Alias.literal.inj hh) hs
        · exact ih _ hh

theorem mem_literalAliases (d : Descriptor) (key : String) :
    key ∈ literalAliases d ↔ ∃ al, d.aliases = some al ∧ Alias.literal key ∈ al := by
  unfold literalAliases
  cases ha : d.aliases with
  | none => simp
  | some al =>
    simp only [List.mem_filterMap, Option.some.injEq, exists_eq_left']
    constructor
    · rintro ⟨a, hmem, hk⟩
      cases a with
      | literal s =>
        simp only [Option.some.injEq] at hk
        subst hk
        exact hmem
      | pattern re => simp at hk
    · intro hmem
      exact ⟨Alias.literal key, hmem, rfl⟩

/-! ## The loader: what is registered -/

theorem mem_mapSet (t : List (String × Descriptor)) (key : String) (v : Descriptor)
    (e : String × Descriptor) (h : e ∈ mapSet t key v) : e ∈ t ∨ e = (key, v) := by
  induction t with
  | nil =>
    simp only [mapSet, List.mem_singleton] at h
    exact Or.inr h
  | cons x rest ih =>
    obtain ⟨k, d⟩ := x
    unfold mapSet at h
    by_cases hk : k = key
    · simp only [hk, if_true, List.mem_cons] at h
      rcases h with h | h
      · exact Or.inr h
      · exact Or.inl (List.mem_cons_of_mem _ h)
    · simp only [hk, if_false, List.mem_cons] at h
      rcases h with h | h
      · exact Or.inl (by rw [h]; exact List.mem_cons_self _ _)
      · rcases ih h with h' | h'
        · exact Or.inl (List.mem_cons_of_mem _ h')
        · exact Or.inr h'

theorem mem_setAliases (cmds : List (String × Descriptor)) (run : Descriptor)
    (al : List Alias) (e : String × Descriptor) (h : e ∈ setAliases cmds run al) :
    e ∈ cmds ∨ e.2 = run := by
  induction al generalizing cmds with
  | nil => exact Or.inl h
  | cons a rest ih =>
    cases a with
    | pattern re => exact ih cmds h
    | literal s =>
      unfold setAliases at h
      rcases ih _ h with h' | h'
      · rcases mem_mapSet _ _ _ _ h' with h'' | h''
        · exact Or.inl h''
        · exact Or.inr (by rw [h''])
      · exact Or.inr h'

/-! ## The flags handed to a command -/

theorem execCalls_returnExec_ctx (plugin : Descriptor) (m : Message) (ctx : ExecContext)
    (d : Descriptor) (c : ExecContext) (h : (d, c) ∈ execCalls (returnExec plugin m ctx).1) :
    c = ctx := by
  unfold returnExec at h
  cases hx : plugin.exec with
  | missing => simp [hx, execCalls] at h
  | notCallable => simp [hx, execCalls] at h
  | fn f =>
    simp only [hx, execCalls, List.mem_singleton, Prod.mk.injEq] at h
    exact h.2

theorem execCalls_prefixStage_flags (host : Host) (g : Globals) (reg : CommandRegistry)
    (m : Message) (body : String) (isAdmin isOwner : Bool) (d : Descriptor) (c : ExecContext)
    (h : (d, c) ∈ execCalls (prefixStage host g reg m body isAdmin isOwner).1) :
    c.isAdmin = isAdmin ∧ c.isOwner = isOwner := by
  unfold prefixStage at h
  cases hp : parseCommand host g body with
  | none => simp [hp, execCalls] at h
  | some p =>
    simp only [hp] at h
    split at h
    · cases hg : mapGet reg.commands p.command with
      | none => simp [hg, execCalls] at h
      | some plugin =>
        simp only [hg] at h
        have hc := execCalls_returnExec_ctx _ _ _ _ _ h
        rw [hc]
        exact ⟨rfl, rfl⟩
    · simp [execCalls_returnCase] at h

theorem execCalls_noPrefixStage_flags (host : Host) (reg : CommandRegistry)
    (m : Message) (body : String) (isAdmin isOwner : Bool) (d : Descriptor) (c : ExecContext)
    (h : (d, c) ∈ execCalls (noPrefixStage host reg m body isAdmin isOwner).1) :
    c.isAdmin = isAdmin ∧ c.isOwner = isOwner := by
  unfold noPrefixStage at h
  rw [noPrefixLoop_eq_find] at h
  split at h
  · have hc := execCalls_returnExec_ctx _ _ _ _ _ h
    rw [hc]
    exact ⟨rfl, rfl⟩
  · simp [execCalls] at h

theorem execCalls_handleMessage_flags (host : Host) (g : Globals) (reg : CommandRegistry)
    (msg : Message) (conn : Conn) (d : Descriptor) (c : ExecContext)
    (h : (d, c) ∈ execCalls (handleMessage host g reg (some msg) conn).trace) :
    resolveFlags host g msg conn = some (c.isAdmin, c.isOwner) := by
  have hx := execCalls_processEventPlugins reg msg conn
  unfold handleMessage at h
  by_cases hme : msg.fromMe = true
  · simp [hme, execCalls] at h
  · simp only [hme, Bool.false_eq_true, if_false] at h
    have key : (d, c) ∈ execCalls (tryBlock host g reg msg conn).1 := by
      split at h
      · next tr heq =>
        rw [heq]
        simpa [execCalls_append, execCalls] using h
      · next tr cpl heq =>
        rw [heq]
        simpa using h
    clear h
    unfold tryBlock at key
    rcases hp : processEventPlugins reg msg conn with ⟨ev, ok⟩
    rw [hp] at hx key
    simp only at hx
    cases ok with
    | false => simp [hx] at key
    | true =>
      simp only at key
      have fin : ∀ body isAdmin isOwner,
          resolveFlags host g msg conn = some (isAdmin, isOwner) →
          (d, c) ∈ execCalls
            (if g.prefixRe.test body then prefixStage host g reg msg body isAdmin isOwner
              else noPrefixStage host reg msg body isAdmin isOwner).1 →
          resolveFlags host g msg conn = some (c.isAdmin, c.isOwner) := by
        intro body isAdmin isOwner hf hk
        have hflags : c.isAdmin = isAdmin ∧ c.isOwner = isOwner := by
          split at hk
          · exact execCalls_prefixStage_flags _ _ _ _ _ _ _ _ _ hk
          · exact execCalls_noPrefixStage_flags _ _ _ _ _ _ _ _ hk
        rw [hf, hflags.1, hflags.2]
      cases hpr : host.print msg with
      | throws => simp [hpr, execCalls_append, hx, execCalls] at key
      | value a =>
        cases hb : msg.body with
        | none => simp [hpr, hb, execCalls_append, hx, execCalls] at key
        | some body =>
          by_cases hne : body = ""
          · simp [hpr, hb, hne, execCalls_append, hx, execCalls] at key
          · cases hf : resolveFlags host g msg conn with
            | none => simp [hpr, hb, hne, hf, execCalls_append, hx, execCalls] at key
            | some flags =>
              obtain ⟨isAdmin, isOwner⟩ := flags
              simp only [hpr, hb, hne, hf, if_false, execCalls_append, hx, execCalls,
                List.nil_append] at key
              rw [← hf]
              exact fin body isAdmin isOwner hf key
      | rejects =>
        cases hb : msg.body with
        | none => simp [hpr, hb, execCalls_append, hx, execCalls] at key
        | some body =>
          by_cases hne : body = ""
          · simp [hpr, hb, hne, execCalls_append, hx, execCalls] at key
          · cases hf : resolveFlags host g msg conn with
            | none => simp [hpr, hb, hne, hf, execCalls_append, hx, execCalls] at key
            | some flags =>
              obtain ⟨isAdmin, isOwner⟩ := flags
              simp only [hpr, hb, hne, hf, if_false, execCalls_append, hx, execCalls,
                List.nil_append] at key
              rw [← hf]
              exact fin body isAdmin isOwner hf key

theorem resolveFlags_isOwner (host : Host) (g : Globals) (msg : Message) (conn : Conn)
    (bot : String) (isAdmin isOwner : Bool)
    (hbot : conn.decodeJid conn.userId = Outcome.value bot)
    (hf : resolveFlags host g msg conn = some (isAdmin, isOwner)) :
    isOwner =
      ((bot :: g.owner).map fun v => stripNonDigits v ++ "@s.whatsapp.net").contains
        msg.sender := by
  unfold resolveFlags at hf
  simp only [hbot] at hf
  split at hf
  · split at hf
    · simp only [Option.some.injEq, Prod.mk.injEq] at hf
      exact hf.2.symm
    · cases hf
  · simp only [Option.some.injEq, Prod.mk.injEq] at hf
    exact hf.2.symm

/-! ## The match of the no-prefix stage, as the specification words it -/

theorem patternAliasMatches_iff (aliases : Option (List Alias)) (msgLower : String) :
    patternAliasMatches aliases msgLower = true ↔
      ∃ al re, aliases = some al ∧ Alias.pattern re ∈ al ∧ re.test msgLower = true := by
  unfold patternAliasMatches
  cases aliases with
  | none => simp
  | some al =>
    simp only [List.any_eq_true]
    constructor
    · rintro ⟨a, hmem, ha⟩
      cases a with
      | literal s => simp at ha
      | pattern re => exact ⟨al, re, rfl, hmem, ha⟩
    · rintro ⟨al', re, hal, hmem, hre⟩
      cases hal
      exact ⟨Alias.pattern re, hmem, hre⟩

theorem entryMatches_iff (host : Host) (msgLower : String) (e : String × Descriptor) :
    entryMatches host msgLower e = true ↔ structurallyMatches host msgLower e := by
  unfold entryMatches structurallyMatches
  simp only [Bool.and_eq_true, Bool.or_eq_true, decide_eq_true_eq, patternAliasMatches_iff]

theorem entryMatches_false_iff (host : Host) (msgLower : String) (e : String × Descriptor) :
    entryMatches host msgLower e = false ↔ ¬ structurallyMatches host msgLower e := by
  rw [← entryMatches_iff]
  simp

/-! ## Version strings and their parts -/

theorem removeFirstV_of_not_mem (l : List Char) (h : 'v' ∉ l) : removeFirstV l = l := by
  induction l with
  | nil => rfl
  | cons c cs ih =>
    have hc : c ≠ 'v' := fun hc => h (by rw [hc]; exact List.mem_cons_self _ _)
    have hcs : 'v' ∉ cs := fun hm => h (List.mem_cons_of_mem _ hm)
    simp [removeFirstV, hc, ih hcs]

theorem mem_joinDots (cs : List String) (c : Char) (h : c ∈ joinDots cs) :
    c = '.' ∨ ∃ s ∈ cs, c ∈ s.data := by
  induction cs with
  | nil => cases h
  | cons a rest ih =>
    cases rest with
    | nil => exact Or.inr ⟨a, List.mem_cons_self _ _, h⟩
    | cons d rest' =>
      simp only [joinDots, List.mem_append, List.mem_cons] at h
      rcases h with h | h | h
      · exact Or.inr ⟨a, List.mem_cons_self _ _, h⟩
      · exact Or.inl h
      · rcases ih h with h' | ⟨s, hs, hc⟩
        · exact Or.inl h'
        · exact Or.inr ⟨s, List.mem_cons_of_mem _ hs, hc⟩

theorem isDigits_mem (s : String) (c : Char) (hs : isDigits s = true) (hc : c ∈ s.data) :
    c.isDigit = true := by
  unfold isDigits at hs
  simp only [Bool.and_eq_true, List.all_eq_true] at hs
  exact hs.2 c hc

theorem splitDotAux_append (l rest cur : List Char) (h : '.' ∉ l) :
    splitDotAux (l ++ rest) cur = splitDotAux rest (l.reverse ++ cur) := by
  induction l generalizing cur with
  | nil => rfl
  | cons c cs ih =>
    have hc : c ≠ '.' := fun hc => h (by rw [hc]; exact List.mem_cons_self _ _)
    have hcs : '.' ∉ cs := fun hm => h (List.mem_cons_of_mem _ hm)
    rw [List.cons_append, splitDotAux, if_neg hc, ih _ hcs, List.reverse_cons,
      List.append_assoc, List.singleton_append]

theorem jsSplitDot_joinDots (cs : List String) (hne : cs ≠ [])
    (h : ∀ s ∈ cs, '.' ∉ s.data) : jsSplitDot (joinDots cs) = cs := by
  unfold jsSplitDot
  induction cs with
  | nil => exact absurd rfl hne
  | cons a rest ih =>
    have ha : '.' ∉ a.data := h a (List.mem_cons_self _ _)
    cases rest with
    | nil =>
      have := splitDotAux_append a.data [] [] ha
      simp only [List.append_nil] at this
      simp [joinDots, this, splitDotAux]
    | cons d rest' =>
      have hrest : ∀ s ∈ d :: rest', '.' ∉ s.data := fun s hs =>
        h s (List.mem_cons_of_mem _ hs)
      have ih' := ih (by simp) hrest
      simp only [joinDots]
      rw [splitDotAux_append _ _ _ ha]
      simp only [splitDotAux, if_true, List.append_nil, List.reverse_reverse]
      rw [ih']

theorem jsNumber_of_safe (s : String) (hs : isDigits s = true)
    (hv : decimalValue s.data < 2 ^ 53) : jsNumber s = JsNumber.int (decimalValue s.data) := by
  unfold isDigits at hs
  simp only [Bool.and_eq_true, Bool.not_eq_true', List.isEmpty_eq_false] at hs
  unfold jsNumber roundToDouble
  rw [if_neg hs.1, if_pos hs.2, if_pos hv]

theorem versionParts_versionString (lead : Bool) (cs : List String) (hne : cs ≠ [])
    (hd : ∀ c ∈ cs, isDigits c = true ∧ decimalValue c.data < 2 ^ 53) :
    versionParts (versionString lead cs) = (componentValues cs).map JsNumber.int := by
  have hv : 'v' ∉ joinDots cs := by
    intro hm
    rcases mem_joinDots cs 'v' hm with h | ⟨s, hs, hc⟩
    · exact absurd h (by decide)
    · exact absurd (isDigits_mem s 'v' (hd s hs).1 hc) (by decide)
  have hdot : ∀ s ∈ cs, '.' ∉ s.data := fun s hs hc =>
    absurd (isDigits_mem s '.' (hd s hs).1 hc) (by decide)
  have hrm : removeFirstV (versionString lead cs).data = joinDots cs := by
    cases lead with
    | true => simp [versionString, removeFirstV]
    | false => simpa [versionString] using removeFirstV_of_not_mem _ hv
  unfold versionParts componentValues
  rw [hrm, jsSplitDot_joinDots cs hne hdot, List.map_map]
  apply List.map_congr_left
  intro c hc
  exact jsNumber_of_safe c (hd c hc).1 (hd c hc).2

theorem compareLoop_tail (p1 p2 : List JsNumber) (k i : Nat) :
    compareLoop p1 p2 k (i + 1) = compareLoop p1.tail p2.tail k i := by
  induction k generalizing i with
  | zero => rfl
  | succ k ih =>
    unfold compareLoop
    have h1 : p1.get? (i + 1) = p1.tail.get? i := by cases p1 <;> simp
    have h2 : p2.get? (i + 1) = p2.tail.get? i := by cases p2 <;> simp
    simp only [h1, h2, ih]

theorem padZeros_succ (xs : List Nat) (k : Nat) (h : xs.length ≤ k + 1) :
    padZeros xs (k + 1) = xs.headD 0 :: padZeros xs.tail k := by
  cases xs with
  | nil => simp [padZeros, List.replicate_succ]
  | cons x rest => simp [padZeros]

theorem compareLoop_eq_lexCompare (xs ys : List Nat) (k : Nat)
    (hx : xs.length ≤ k) (hy : ys.length ≤ k) :
    compareLoop (xs.map JsNumber.int) (ys.map JsNumber.int) k 0 =
      lexCompare (padZeros xs k) (padZeros ys k) := by
  induction k generalizing xs ys with
  | zero =>
    have h1 : xs = [] := List.length_eq_zero.mp (Nat.le_zero.mp hx)
    have h2 : ys = [] := List.length_eq_zero.mp (Nat.le_zero.mp hy)
    subst h1 h2
    rfl
  | succ k ih =>
    have hx' : xs.tail.length ≤ k := by simp only [List.length_tail]; omega
    have hy' : ys.tail.length ≤ k := by simp only [List.length_tail]; omega
    have h1 : orZero ((xs.map JsNumber.int).get? 0) = JsNumber.int (xs.headD 0) := by
      cases xs <;> rfl
    have h2 : orZero ((ys.map JsNumber.int).get? 0) = JsNumber.int (ys.headD 0) := by
      cases ys <;> rfl
    rw [padZeros_succ xs k hx, padZeros_succ ys k hy]
    unfold compareLoop lexCompare
    simp only [h1, h2, JsNumber.gt, decide_eq_true_eq, compareLoop_tail, ← List.map_tail]
    rw [ih xs.tail ys.tail hx' hy']

theorem lexCompare_swap (a b : List Nat) : lexCompare b a = - lexCompare a b := by
  induction a generalizing b with
  | nil => cases b <;> simp [lexCompare]
  | cons x xs ih =>
    cases b with
    | nil => simp [lexCompare]
    | cons y ys =>
      simp only [lexCompare]
      by_cases h1 : y < x
      · have h2 : ¬ x < y := by omega
        simp [h1, h2]
      · by_cases h2 : x < y
        · simp [h1, h2]
        · simp [h1, h2, ih]

theorem lex_cons_cons (x y : Nat) (xs ys : List Nat) :
    List.Lex (· < ·) (y :: ys) (x :: xs) ↔ y < x ∨ (y = x ∧ List.Lex (· < ·) ys xs) := by
  constructor
  · intro h
    cases h with
    | cons h' => exact Or.inr ⟨rfl, h'⟩
    | rel h' => exact Or.inl h'
  · rintro (h | ⟨h, h'⟩)
    · exact List.Lex.rel h
    · subst h
      exact List.Lex.cons h'

theorem lexCompare_eq_one (a b : List Nat) (h : a.length = b.length) :
    lexCompare a b = 1 ↔ List.Lex (· < ·) b a := by
  induction a generalizing b with
  | nil =>
    cases b with
    | nil => simp [lexCompare]
    | cons y ys => simp at h
  | cons x xs ih =>
    cases b with
    | nil => simp at h
    | cons y ys =>
      have hl : xs.length = ys.length := by simpa using h
      simp only [lexCompare, lex_cons_cons]
      by_cases h1 : y < x
      · simp [h1]
      · by_cases h2 : x < y
        · have h3 : y ≠ x := by omega
          simp [h1, h2, h3]
        · have h3 : y = x := by omega
          simp [h1, h2, h3, ih ys hl]

theorem lexCompare_eq_zero (a b : List Nat) (h : a.length = b.length) :
    lexCompare a b = 0 ↔ a = b := by
  induction a generalizing b with
  | nil =>
    cases b with
    | nil => simp [lexCompare]
    | cons y ys => simp at h
  | cons x xs ih =>
    cases b with
    | nil => simp at h
    | cons y ys =>
      have hl : xs.length = ys.length := by simpa using h
      simp only [lexCompare, List.cons.injEq]
      by_cases h1 : y < x
      · have h3 : x ≠ y := by omega
        simp [h1, h3]
      · by_cases h2 : x < y
        · have h3 : x ≠ y := by omega
          simp [h1, h2, h3]
        · have h3 : x = y := by omega
          simp [h1, h2, h3, ih ys hl]

theorem length_padZeros (xs : List Nat) (n : Nat) (h : xs.length ≤ n) :
    (padZeros xs n).length = n := by
  simp only [padZeros, List.length_append, List.length_replicate]
  omega

/-! ## Records and healing statements -/

theorem recGet_recSet (r : Record) (t key : String) (v : FieldVal) :
    recGet (recSet r t v) key = if key = t then some v else recGet r key := by
  induction r with
  | nil =>
    by_cases h : key = t
    · simp [recSet, recGet, h]
    · simp [recSet, recGet, h, Ne.symm h]
  | cons e rest ih =>
    obtain ⟨k, w⟩ := e
    unfold recSet
    by_cases hk : k = t
    · subst hk
      by_cases h : key = k
      · simp [recGet, h]
      · simp [recGet, h, Ne.symm h]
    · by_cases h : key = t
      · subst h
        simp [hk, recGet, ih]
      · by_cases hkk : k = key
        · subst hkk
          simp [hk, recGet]
        · simp [hk, recGet, hkk, ih, h]

theorem recSet_same (r : Record) (key : String) (v : FieldVal)
    (h : recGet r key = some v) : recSet r key v = r := by
  induction r with
  | nil => simp [recGet] at h
  | cons e rest ih =>
    obtain ⟨k, w⟩ := e
    unfold recSet
    unfold recGet at h
    by_cases hk : k = key
    · simp only [hk, if_true, Option.some.injEq] at h
      simp [hk, h]
    · simp only [hk, if_false] at h
      simp [hk, ih h]

theorem recGet_applyRule (r : Record) (rule : HealRule) (key : String) :
    recGet (applyRule r rule) key =
      if rule.fires r = true ∧ key = rule.target then some rule.dflt else recGet r key := by
  unfold applyRule
  by_cases hf : rule.fires r = true
  · simp only [hf, if_true, true_and, recGet_recSet]
  · simp [hf]

theorem fires_congr (rule : HealRule) (r r' : Record)
    (h : recGet r' rule.check.key = recGet r rule.check.key) : rule.fires r' = rule.fires r := by
  unfold HealRule.fires
  cases hc : rule.check with
  | absent key =>
    rw [hc] at h
    simp only [Check.key] at h
    simp only [h]
  | notNumber key =>
    rw [hc] at h
    simp only [Check.key] at h
    simp only [h]

/-- The healing statements do not interfere: no two assign the same property, and no
statement tests a property that another statement assigns. -/
def independentRules (rules : List HealRule) : Prop :=
  rules.Pairwise fun a b =>
    a.target ≠ b.target ∧ a.check.key ≠ b.target ∧ b.check.key ≠ a.target

instance (rules : List HealRule) : Decidable (independentRules rules) := by
  unfold independentRules
  infer_instance

theorem recGet_foldl_applyRule (rules : List HealRule) (h : independentRules rules)
    (r : Record) (key : String) :
    recGet (rules.foldl applyRule r) key =
      match rules.find? (fun rule => rule.target == key) with
      | some rule => if rule.fires r = true then some rule.dflt else recGet r key
      | none => recGet r key := by
  induction rules generalizing r with
  | nil => rfl
  | cons rule rest ih =>
    unfold independentRules at h
    rw [List.pairwise_cons] at h
    obtain ⟨hhead, hrest⟩ := h
    rw [List.foldl_cons, ih hrest]
    by_cases hk : rule.target = key
    · subst hk
      have hnone : rest.find? (fun x => x.target == rule.target) = none := by
        rw [List.find?_eq_none]
        intro x hx
        have := (hhead x hx).1
        simp only [beq_iff_eq]
        intro hxk
        exact this hxk.symm
      simp only [hnone, List.find?_cons, beq_self_eq_true, recGet_applyRule, and_true]
    · have hkb : (rule.target == key) = false := by simpa using hk
      simp only [List.find?_cons, hkb]
      have hget : recGet (applyRule r rule) key = recGet r key := by
        rw [recGet_applyRule]
        have : ¬ (rule.fires r = true ∧ key = rule.target) := fun hh => hk hh.2.symm
        simp [this]
      cases hfind : rest.find? (fun x => x.target == key) with
      | none => simp only [hget]
      | some x =>
        have hx : x ∈ rest := List.mem_of_find?_eq_some hfind
        have hck : x.check.key ≠ rule.target := (hhead x hx).2.2
        have hfires : x.fires (applyRule r rule) = x.fires r := by
          apply fires_congr
          rw [recGet_applyRule]
          have : ¬ (rule.fires r = true ∧ x.check.key = rule.target) := fun hh => hck hh.2
          simp [this]
        simp only [hfires, hget]

theorem independentRules_symm (rules : List HealRule) (h : independentRules rules)
    (a b : HealRule) (ha : a ∈ rules) (hb : b ∈ rules) (hab : a ≠ b) :
    a.target ≠ b.target ∧ a.check.key ≠ b.target ∧ b.check.key ≠ a.target := by
  unfold independentRules at h
  exact List.Pairwise.forall
    (fun x y hxy => ⟨fun e => hxy.1 e.symm, hxy.2.2, hxy.2.1⟩) h ha hb hab

theorem find_of_mem_independent (rules : List HealRule) (h : independentRules rules)
    (rule : HealRule) (hmem : rule ∈ rules) :
    rules.find? (fun x => x.target == rule.target) = some rule := by
  cases hf : rules.find? (fun x => x.target == rule.target) with
  | none =>
    have := List.find?_eq_none.mp hf rule hmem
    simp at this
  | some x =>
    have hx : x ∈ rules := List.mem_of_find?_eq_some hf
    have ht : x.target = rule.target := by
      have := List.find?_some hf
      simpa using this
    by_cases hxr : x = rule
    · rw [hxr]
    · exact absurd ht (independentRules_symm rules h x rule hx hmem hxr).1

theorem settled_after_fold (rules : List HealRule) (h : independentRules rules)
    (r : Record) (rule : HealRule) (hmem : rule ∈ rules)
    (hf : rule.fires (rules.foldl applyRule r) = true) :
    recGet (rules.foldl applyRule r) rule.target = some rule.dflt := by
  rw [recGet_foldl_applyRule rules h r rule.target, find_of_mem_independent rules h rule hmem]
  simp only
  by_cases hfr : rule.fires r = true
  · simp [hfr]
  · exfalso
    apply hfr
    rw [← hf]
    symm
    apply fires_congr
    rw [recGet_foldl_applyRule rules h r rule.check.key]
    cases hfind : rules.find? (fun x => x.target == rule.check.key) with
    | none => rfl
    | some x =>
      have hx : x ∈ rules := List.mem_of_find?_eq_some hfind
      have ht : x.target = rule.check.key := by
        have := List.find?_some hfind
        simpa using this
      by_cases hxr : x = rule
      · subst hxr
        simp [hfr]
      · exact absurd ht.symm (independentRules_symm rules h x rule hx hmem hxr).2.2

theorem foldl_applyRule_settled (rules : List HealRule) (r : Record)
    (h : ∀ rule ∈ rules, rule.fires r = true → recGet r rule.target = some rule.dflt) :
    rules.foldl applyRule r = r := by
  induction rules with
  | nil => rfl
  | cons rule rest ih =>
    have hstep : applyRule r rule = r := by
      unfold applyRule
      by_cases hf : rule.fires r = true
      · simp only [hf, if_true]
        exact recSet_same r _ _ (h rule (List.mem_cons_self _ _) hf)
      · simp [hf]
    rw [List.foldl_cons, hstep]
    exact ih fun x hx => h x (List.mem_cons_of_mem _ hx)

theorem foldl_applyRule_idempotent (rules : List HealRule) (h : independentRules rules)
    (r : Record) :
    rules.foldl applyRule (rules.foldl applyRule r) = rules.foldl applyRule r :=
  foldl_applyRule_settled rules _ fun rule hmem hf => settled_after_fold rules h r rule hmem hf

theorem chatRules_independent : independentRules chatRules := by
  decide

/-! ## The claims -/

/-- Claim C1, evaluated where the code departs from it: the example plugin is stored under
the key `pong`, and for the prefixed body `/pong` the first token with the prefix stripped,
lowercased, is `pong`; yet `handleMessage` looks up `/pong`, invokes no command body and
calls the fallback case handler instead. -/
theorem prefixed_key_not_invoked :
    mapGet (registryOf pingPlugin).commands "pong" = some pingPlugin ∧
    slashGlobals.prefixRe.test "/pong" = true ∧
    (specParseCommand sampleHost "/pong").map Parsed.command = some "pong" ∧
    (parseCommand sampleHost slashGlobals "/pong").map Parsed.command = some "/pong" ∧
    execCalls (handleMessage sampleHost slashGlobals (withCaseHandler (registryOf pingPlugin))
      (some (directMessage (some "/pong"))) sampleConn).trace = [] ∧
    caseCalls (handleMessage sampleHost slashGlobals (withCaseHandler (registryOf pingPlugin))
      (some (directMessage (some "/pong"))) sampleConn).trace = 1 := by
  refine ⟨rfl, rfl, rfl, rfl, rfl, rfl⟩

/-- Claim C2, evaluated where the code departs from it: `prefix.length` is `undefined`, so
`slice` removes nothing from any body; for prefix `/` and body `/ping hello world` the code
computes the trigger key `/ping` (arguments and text as claimed), where the specification's
wording gives `ping`. -/
theorem parseCommand_keeps_prefix :
    (∀ (g : Globals) (body : String), jsSlice body g.prefixRe.length = body) ∧
    slashGlobals.prefixRe.test "/ping hello world" = true ∧
    parseCommand sampleHost slashGlobals "/ping hello world" =
      some { command := "/ping", args := ["hello", "world"], text := "hello world" } ∧
    specParseCommand sampleHost "/ping hello world" =
      some { command := "ping", args := ["hello", "world"], text := "hello world" } := by
  refine ⟨fun _ _ => rfl, rfl, rfl, rfl⟩

/-- Claim C3 as stated fails: the loader registers a `noPrefix` unit named `ping` that has
no `exec`, then the example plugin; the example plugin is marked `noPrefix` and stored
under `Ping`, whose lowercase form is the body `ping`, yet `handleMessage` invokes no
command body at all: the first matching entry is the unit without `exec`, the call throws
and the error is logged. -/
theorem bodyless_first_match_blocks :
    bodylessFirstRegistry.commands =
      [("ping", bodylessPing), ("Ping", pingPlugin), ("p", pingPlugin), ("pong", pingPlugin)] ∧
    pingPlugin.noPrefix = true ∧
    sampleHost.toLowerCase "Ping" = sampleHost.toLowerCase "ping" ∧
    slashGlobals.prefixRe.test "ping" = false ∧
    execCalls (handleMessage sampleHost slashGlobals bodylessFirstRegistry
      (some (directMessage (some "ping"))) sampleConn).trace = [] ∧
    (handleMessage sampleHost slashGlobals bodylessFirstRegistry
      (some (directMessage (some "ping"))) sampleConn).trace =
      [Event.print, Event.errorHandlingMessage] := by
  refine ⟨rfl, rfl, rfl, rfl, rfl, rfl⟩

/-- Claim C3, amended: for a command table whose descriptors have a callable `exec` and a
message that is not from the bot, with a non-empty body that does not match the prefix
pattern, whose context resolves (for a group message the roster fetch of the event stage
succeeds, `print` does not throw, lines 114-119 give the flags): if `D`, marked `noPrefix`,
is stored under a key whose lowercase form equals the lowercased body, then exactly one
command body is invoked, that of the first entry in insertion order that matches the body
by its key or by a pattern alias; it is `D` itself whenever no entry before `(k, D)`
matches. -/
theorem noPrefix_first_match_invoked (host : Host) (g : Globals) (reg : CommandRegistry)
    (msg : Message) (conn : Conn) (body : String) (isAdmin isOwner : Bool) (k : String)
    (D : Descriptor)
    (hme : msg.fromMe = false) (hbody : msg.body = some body) (hne : body ≠ "")
    (htest : g.prefixRe.test body = false)
    (hroster : msg.isGroup = true →
      ∃ gm, conn.groupMetadata msg.chat = Outcome.value (some gm))
    (hprint : host.print msg ≠ Outcome.throws)
    (hflags : resolveFlags host g msg conn = some (isAdmin, isOwner))
    (hcallable : ∀ e ∈ reg.commands, e.2.exec.callable = true)
    (hD : (k, D) ∈ reg.commands) (hnp : D.noPrefix = true)
    (hkey : host.toLowerCase k = host.toLowerCase body) :
    (∃ pre e post, reg.commands = pre ++ e :: post ∧
      (∀ x ∈ pre, ¬ structurallyMatches host (host.toLowerCase body) x) ∧
      structurallyMatches host (host.toLowerCase body) e ∧
      execCalls (handleMessage host g reg (some msg) conn).trace =
        [(e.2, { text := body, args := jsSplitSpace body,
                 isAdmin := isAdmin, isOwner := isOwner })]) ∧
    (∀ pre post, reg.commands = pre ++ (k, D) :: post →
      (∀ x ∈ pre, ¬ structurallyMatches host (host.toLowerCase body) x) →
      execCalls (handleMessage host g reg (some msg) conn).trace =
        [(D, { text := body, args := jsSplitSpace body,
               isAdmin := isAdmin, isOwner := isOwner })]) := by
  have hev : (processEventPlugins reg msg conn).2 = true := by
    obtain ⟨ctx, hp⟩ := processEventPlugins_of_roster reg msg conn hroster
    rw [hp]
  have hDm : entryMatches host (host.toLowerCase body) (k, D) = true := by
    simp [entryMatches, hnp, hkey]
  have htrace : ∀ e, reg.commands.find? (entryMatches host (host.toLowerCase body)) = some e →
      execCalls (handleMessage host g reg (some msg) conn).trace =
        [(e.2, { text := body, args := jsSplitSpace body,
                 isAdmin := isAdmin, isOwner := isOwner })] := by
    intro e he
    have hmem : e ∈ reg.commands := List.mem_of_find?_eq_some he
    have hstage : noPrefixStage host reg msg body isAdmin isOwner =
        returnExec e.2 msg { text := body, args := jsSplitSpace body,
                             isAdmin := isAdmin, isOwner := isOwner } := by
      unfold noPrefixStage
      rw [noPrefixLoop_eq_find, he]
    have hcalls := execCalls_returnExec_callable e.2 msg
      { text := body, args := jsSplitSpace body, isAdmin := isAdmin, isOwner := isOwner }
      (hcallable e hmem)
    have hst := (handleMessage_stage host g reg msg conn body isAdmin isOwner hme hbody hne hev
      hprint hflags).1
    rw [hst]
    simp only [htest, Bool.false_eq_true, if_false]
    rw [hstage, hcalls]
  constructor
  · cases hf : reg.commands.find? (entryMatches host (host.toLowerCase body)) with
    | none =>
      have := List.find?_eq_none.mp hf (k, D) hD
      simp [hDm] at this
    | some e =>
      obtain ⟨hpe, pre, post, hsplit, hpre⟩ := List.find?_eq_some.mp hf
      refine ⟨pre, e, post, hsplit, ?_, (entryMatches_iff _ _ _).mp hpe, htrace e hf⟩
      intro x hx
      have hxf : entryMatches host (host.toLowerCase body) x = false := by
        simpa using hpre x hx
      exact (entryMatches_false_iff _ _ _).mp hxf
  · intro pre post hsplit hpre
    exact htrace (k, D) (find_unique_split _ _ pre post (k, D) hsplit
      (fun x hx => (entryMatches_false_iff _ _ _).mpr (hpre x hx)) hDm)

/-- Claim C3, amended, at a concrete input: a group message whose roster is fetched;
`Ping` and `ping` are both stored and both match the body `ping`; the descriptor stored
first, under `Ping`, is the one invoked. -/
theorem noPrefix_first_match_invoked_witness :
    twoPingRegistry.commands = [("Ping", upperPing), ("ping", lowerPing)] ∧
    slashGlobals.prefixRe.test "ping" = false ∧
    sampleHost.toLowerCase "Ping" = sampleHost.toLowerCase "ping" ∧
    execCalls (handleMessage sampleHost slashGlobals twoPingRegistry
      (some (groupMessage (some "ping"))) rosterConn).trace = [(upperPing, pingContext)] :=
  ⟨rfl, rfl, rfl,
    (noPrefix_first_match_invoked sampleHost slashGlobals twoPingRegistry
      (groupMessage (some "ping")) rosterConn "ping" false false "Ping" upperPing
      rfl rfl (by decide) rfl (fun _ => ⟨_, rfl⟩) (by simp [sampleHost]) rfl
      (by
        intro e he
        have hmem : e ∈ [("Ping", upperPing), ("ping", lowerPing)] := he
        simp only [List.mem_cons, List.mem_singleton, List.not_mem_nil, or_false] at hmem
        rcases hmem with h | h <;> rw [h] <;> rfl)
      (List.Mem.head _) rfl rfl).2 [] [("ping", lowerPing)] rfl
      (fun _ h => nomatch h)⟩

/-- Claim C4: one call of `handleMessage` invokes at most one command body, whatever the
command table, the message and the environment are. -/
theorem handleMessage_at_most_one_exec (host : Host) (g : Globals) (reg : CommandRegistry)
    (m : Option Message) (conn : Conn) :
    (execCalls (handleMessage host g reg m conn).trace).length ≤ 1 := by
  unfold handleMessage
  cases m with
  | none => simp [execCalls]
  | some msg =>
    simp only
    split
    · simp [execCalls]
    · have h := execCalls_tryBlock_length host g reg msg conn
      split
      · next tr heq =>
        rw [heq] at h
        simpa [execCalls_append, execCalls] using h
      · next tr c heq =>
        rw [heq] at h
        simpa using h

/-- Claim C5 as stated fails: a message sent by the bot itself, without body, is dropped by
the guard at the head of `handleMessage`; nothing happens, and the registered event
handler, whose `main` is callable, is not run. -/
theorem own_message_runs_no_event_handler :
    ownMessage.body = none ∧ ownMessage.fromMe = true ∧ observer.main.callable = true ∧
    (handleMessage sampleHost slashGlobals { emptyRegistry with eventHandlers := [observer] }
      (some ownMessage) sampleConn).trace = [] ∧
    (mainCalls (handleMessage sampleHost slashGlobals
      { emptyRegistry with eventHandlers := [observer] }
      (some ownMessage) sampleConn).trace).map Prod.fst ≠
      ({ emptyRegistry with eventHandlers := [observer] } : CommandRegistry).eventHandlers := by
  refine ⟨rfl, rfl, rfl, rfl, ?_⟩
  intro h
  have h2 : ([] : List Descriptor) = [observer] := h
  exact List.noConfusion h2

/-- Claim C5, amended: for every message that is not from the bot, whose body is empty or
absent, and for which the roster fetch of the event stage succeeds when it is a group
message, `handleMessage` invokes no command body and no fallback handler, and invokes the
`main` of every event handler that has a callable `main` exactly once, in load order. -/
theorem empty_body_runs_event_handlers_only (host : Host) (g : Globals)
    (reg : CommandRegistry) (msg : Message) (conn : Conn)
    (hme : msg.fromMe = false) (hbody : msg.body = none ∨ msg.body = some "")
    (hroster : msg.isGroup = true →
      ∃ gm, conn.groupMetadata msg.chat = Outcome.value (some gm)) :
    execCalls (handleMessage host g reg (some msg) conn).trace = [] ∧
    caseCalls (handleMessage host g reg (some msg) conn).trace = 0 ∧
    (mainCalls (handleMessage host g reg (some msg) conn).trace).map Prod.fst =
      reg.eventHandlers.filter fun h => h.main.callable := by
  obtain ⟨ctx, hp⟩ := processEventPlugins_of_roster reg msg conn hroster
  refine ⟨?_, ?_, ?_⟩
  · unfold handleMessage tryBlock
    simp only [hme, Bool.false_eq_true, if_false, hp]
    cases host.print msg <;> rcases hbody with hb | hb <;>
      simp [hb, execCalls_append, execCalls_runEventHandlers, execCalls]
  · unfold handleMessage tryBlock
    simp only [hme, Bool.false_eq_true, if_false, hp]
    cases host.print msg <;> rcases hbody with hb | hb <;>
      simp [hb, caseCalls_append, caseCalls_runEventHandlers, caseCalls]
  · rw [mainCalls_handleMessage host g reg msg conn hme, hp]
    simp only [mainCalls_runEventHandlers, List.map_map]
    exact List.map_id _

/-- Claim C5, amended, at a concrete input: a group message without body whose roster is
fetched, two event handlers of which the first throws. -/
theorem empty_body_runs_event_handlers_only_witness :
    (groupMessage none).fromMe = false ∧ (groupMessage none).body = none ∧
    execCalls (handleMessage sampleHost slashGlobals
      { registryOf pingPlugin with eventHandlers := [failingObserver, observer] }
      (some (groupMessage none)) rosterConn).trace = [] ∧
    caseCalls (handleMessage sampleHost slashGlobals
      { registryOf pingPlugin with eventHandlers := [failingObserver, observer] }
      (some (groupMessage none)) rosterConn).trace = 0 ∧
    (mainCalls (handleMessage sampleHost slashGlobals
      { registryOf pingPlugin with eventHandlers := [failingObserver, observer] }
      (some (groupMessage none)) rosterConn).trace).map Prod.fst =
      [failingObserver, observer] :=
  ⟨rfl, rfl,
    empty_body_runs_event_handlers_only sampleHost slashGlobals
      { registryOf pingPlugin with eventHandlers := [failingObserver, observer] }
      (groupMessage none) rosterConn rfl (Or.inl rfl) (fun _ => ⟨_, rfl⟩)⟩

/-- Claim C6: if, during a call of `handleMessage`, the `main` of an event handler is
invoked and throws or rejects, then the failure is logged, every event handler with a
callable `main` is invoked, each once and in list order (so in particular all later ones),
and the dispatch goes on:
once the body is non-empty, `print` does not throw and lines 114-119 give the flags, the
command bodies and fallback handler invoked are exactly those of the prefix stage, or of
the no-prefix stage when the body does not match the prefix pattern. -/
theorem event_failure_isolated (host : Host) (g : Globals) (reg : CommandRegistry)
    (msg : Message) (conn : Conn) (h : Descriptor) (ctx : EventContext)
    (f : Message → EventContext → Outcome Unit)
    (hcall : (h, ctx) ∈ mainCalls (handleMessage host g reg (some msg) conn).trace)
    (hfn : h.main = Body.fn f)
    (hfail : f msg ctx = Outcome.throws ∨ f msg ctx = Outcome.rejects) :
    Event.errorInEventPlugin ∈ (handleMessage host g reg (some msg) conn).trace ∧
    mainCalls (handleMessage host g reg (some msg) conn).trace =
      ((reg.eventHandlers.filter fun h' => h'.main.callable).map fun h' => (h', ctx)) ∧
    (∀ body isAdmin isOwner, msg.body = some body → body ≠ "" →
      host.print msg ≠ Outcome.throws →
      resolveFlags host g msg conn = some (isAdmin, isOwner) →
      execCalls (handleMessage host g reg (some msg) conn).trace =
        execCalls (if g.prefixRe.test body then prefixStage host g reg msg body isAdmin isOwner
            else noPrefixStage host reg msg body isAdmin isOwner).1 ∧
      caseCalls (handleMessage host g reg (some msg) conn).trace =
        caseCalls (if g.prefixRe.test body then prefixStage host g reg msg body isAdmin isOwner
            else noPrefixStage host reg msg body isAdmin isOwner).1) := by
  have hme : msg.fromMe = false := by
    cases hm : msg.fromMe with
    | false => rfl
    | true =>
      unfold handleMessage at hcall
      simp [hm, mainCalls] at hcall
  rw [mainCalls_handleMessage host g reg msg conn hme] at hcall
  have hp : h ∈ reg.eventHandlers ∧ processEventPlugins reg msg conn =
      (runEventHandlers msg ctx reg.eventHandlers, true) := by
    rcases processEventPlugins_cases reg msg conn with hp | ⟨ctx', hp⟩
    · rw [hp] at hcall
      simp [mainCalls] at hcall
    · rw [hp] at hcall
      simp only [mainCalls_runEventHandlers, List.mem_map, Prod.mk.injEq] at hcall
      obtain ⟨h', hmem, hh, hctx⟩ := hcall
      subst hh
      exact ⟨List.mem_of_mem_filter hmem, by rw [hp, hctx]⟩
  obtain ⟨hmem, hp⟩ := hp
  refine ⟨?_, ?_, ?_⟩
  · apply handleMessage_events host g reg msg conn hme
    rw [hp]
    exact runEventHandlers_logs msg ctx reg.eventHandlers h f hmem hfn hfail
  · rw [mainCalls_handleMessage host g reg msg conn hme, hp]
    exact mainCalls_runEventHandlers _ _ _
  · intro body isAdmin isOwner hbody hne hprint hflags
    exact handleMessage_stage host g reg msg conn body isAdmin isOwner hme hbody hne
      (by rw [hp]) hprint hflags

/-- Claim C6 at a concrete input: the first of two event handlers throws, the second is
still invoked and the command matching the body `ping` is invoked. -/
theorem event_failure_isolated_witness :
    mainCalls (handleMessage sampleHost slashGlobals
      { registryOf pingPlugin with eventHandlers := [failingObserver, observer] }
      (some (directMessage (some "ping"))) sampleConn).trace =
      [(failingObserver, { isAdmin := false, isBotAdmin := false }),
        (observer, { isAdmin := false, isBotAdmin := false })] ∧
    execCalls (handleMessage sampleHost slashGlobals
      { registryOf pingPlugin with eventHandlers := [failingObserver, observer] }
      (some (directMessage (some "ping"))) sampleConn).trace = [(pingPlugin, pingContext)] :=
  ⟨(event_failure_isolated sampleHost slashGlobals
      { registryOf pingPlugin with eventHandlers := [failingObserver, observer] }
      (directMessage (some "ping")) sampleConn failingObserver
      { isAdmin := false, isBotAdmin := false } (fun _ _ => Outcome.throws)
      (List.Mem.head _) rfl (Or.inl rfl)).2.1,
    ((event_failure_isolated sampleHost slashGlobals
      { registryOf pingPlugin with eventHandlers := [failingObserver, observer] }
      (directMessage (some "ping")) sampleConn failingObserver
      { isAdmin := false, isBotAdmin := false } (fun _ _ => Outcome.throws)
      (List.Mem.head _) rfl (Or.inl rfl)).2.2 "ping" false false rfl (by decide)
      (by simp [sampleHost]) rfl).1⟩

/-- Claim C7, evaluated where the code departs from it: when the command body matched by
the body `ping` returns a promise that rejects, the promise of `handleMessage` rejects and
nothing is logged; a command body that throws synchronously and an event handler whose
promise rejects are both caught. -/
theorem rejected_exec_escapes :
    (handleMessage sampleHost slashGlobals (registryOf rejectingPing)
      (some (directMessage (some "ping"))) sampleConn).completion = Completion.rejected ∧
    (handleMessage sampleHost slashGlobals (registryOf rejectingPing)
      (some (directMessage (some "ping"))) sampleConn).trace =
        [Event.print, Event.exec rejectingPing pingContext] ∧
    (handleMessage sampleHost slashGlobals (registryOf throwingPing)
      (some (directMessage (some "ping"))) sampleConn).completion = Completion.resolved ∧
    (handleMessage sampleHost slashGlobals
      { emptyRegistry with eventHandlers := [rejectingObserver] }
      (some (directMessage (some "ping"))) sampleConn).completion = Completion.resolved := by
  refine ⟨rfl, rfl, rfl, rfl⟩

/-- Claim C8, evaluated where the code departs from it: for a group message whose roster
fetch fails, `handleMessage` only logs an error; neither the event handler nor the command
matching the body `ping` is invoked, while both are invoked for the same body in a private
chat. -/
theorem failed_roster_fetch_aborts :
    (handleMessage sampleHost slashGlobals
      { registryOf pingPlugin with eventHandlers := [observer] }
      (some (groupMessage (some "ping"))) sampleConn).trace = [Event.errorHandlingMessage] ∧
    (handleMessage sampleHost slashGlobals
      { registryOf pingPlugin with eventHandlers := [observer] }
      (some (directMessage (some "ping"))) sampleConn).trace =
        [Event.main observer { isAdmin := false, isBotAdmin := false }, Event.print,
          Event.exec pingPlugin pingContext] := by
  refine ⟨rfl, rfl⟩

/-- Claim C9: the prefix stage looks the lowercased candidate key up among the keys as
stored.  For a `toLowerCase` whose results contain no uppercase letter: a descriptor stored
only under keys that contain an uppercase letter is invoked by no message whose body
matches the prefix pattern.  For the `noPrefix` command stored under `Ping`: the bodies
`/Ping` and `/ping` invoke nothing, the un-prefixed body `ping` invokes it. -/
theorem uppercase_key_unreachable (host : Host) (g : Globals)
    (reg : CommandRegistry) (msg : Message) (conn : Conn) (body : String) (D : Descriptor)
    (hlow : ∀ s c, c ∈ (host.toLowerCase s).data → c.isUpper = false)
    (hkeys : ∀ key d, (key, d) ∈ reg.commands → d = D → ∃ c ∈ key.data, c.isUpper = true)
    (hbody : msg.body = some body) (htest : g.prefixRe.test body = true) :
    (∀ ctx, (D, ctx) ∉ execCalls (handleMessage host g reg (some msg) conn).trace) ∧
    (registryOf upperPing).commands = [("Ping", upperPing)] ∧
    execCalls (handleMessage sampleHost slashGlobals (registryOf upperPing)
      (some (directMessage (some "/Ping"))) sampleConn).trace = [] ∧
    execCalls (handleMessage sampleHost slashGlobals (registryOf upperPing)
      (some (directMessage (some "/ping"))) sampleConn).trace = [] ∧
    execCalls (handleMessage sampleHost slashGlobals (registryOf upperPing)
      (some (directMessage (some "ping"))) sampleConn).trace = [(upperPing, pingContext)] := by
  refine ⟨?_, rfl, rfl, rfl, rfl⟩
  intro ctx hmem
  obtain ⟨body', isAdmin, isOwner, hb, hstage⟩ :=
    execCalls_handleMessage_mem host g reg msg conn D ctx hmem
  rw [hbody] at hb
  cases hb
  simp only [htest, if_true] at hstage
  obtain ⟨token, htok⟩ := execCalls_prefixStage_mem host g reg msg body isAdmin isOwner D ctx hstage
  obtain ⟨c, hc, hup⟩ := hkeys _ _ htok rfl
  rw [hlow token c hc] at hup
  cases hup

/-- Claim C9 at a concrete input: the command stored under `Ping` alone is never reached by
the prefixed body `/Ping`. -/
theorem uppercase_key_unreachable_witness :
    slashGlobals.prefixRe.test "/Ping" = true ∧
    ∀ ctx, (upperPing, ctx) ∉ execCalls (handleMessage sampleHost slashGlobals
      (registryOf upperPing) (some (directMessage (some "/Ping"))) sampleConn).trace :=
  ⟨rfl,
    (uppercase_key_unreachable sampleHost slashGlobals (registryOf upperPing)
      (directMessage (some "/Ping")) sampleConn "/Ping" upperPing asciiLower_no_upper
      (by
        intro key d hmem _
        have hk : (key, d) ∈ [("Ping", upperPing)] := hmem
        simp only [List.mem_singleton, Prod.mk.injEq] at hk
        exact ⟨'P', by rw [hk.1]; decide, by decide⟩)
      rfl rfl).1⟩

/-- Claim C10: for a unit that is not classified as an event unit and declares a (truthy)
trigger name, `loadPluginFile` makes the command table map the name as declared and every
string entry of `alias` to the unit's descriptor, and leaves the lookup of every other key
as it was (keys are strings, so a pattern alias adds no key); the event handlers are
unchanged.  Loading the example plugin into an empty registry gives exactly the keys
`Ping`, `p` and `pong`. -/
theorem loadPluginFile_registers_command (reg : CommandRegistry) (fileName : String)
    (run : Descriptor) (name : String)
    (hevent : (fileName.data.head? = some '_' && run.main.truthy) = false)
    (hname : run.name = some name) (hne : name ≠ "") :
    mapGet (loadPluginFile reg fileName (some { run := some run })).commands name = some run ∧
    (∀ a, a ∈ literalAliases run →
      mapGet (loadPluginFile reg fileName (some { run := some run })).commands a = some run) ∧
    (∀ key, key ≠ name → key ∉ literalAliases run →
      mapGet (loadPluginFile reg fileName (some { run := some run })).commands key =
        mapGet reg.commands key) ∧
    (loadPluginFile reg fileName (some { run := some run })).eventHandlers =
      reg.eventHandlers ∧
    (loadPluginFile emptyRegistry "test.js" (some { run := some pingPlugin })).commands.map
      Prod.fst = ["Ping", "p", "pong"] := by
  have hload : (loadPluginFile reg fileName (some { run := some run })) =
      { reg with commands :=
          match run.aliases with
          | some al => setAliases (mapSet reg.commands name run) run al
          | none => mapSet reg.commands name run } := by
    unfold loadPluginFile
    have hn : nameTruthy (some name) = true := by simp [nameTruthy, hne]
    simp only [hevent, hname, hn, Bool.false_eq_true, if_false, if_true]
    cases run.aliases <;> rfl
  rw [hload]
  refine ⟨?_, ?_, ?_, rfl, rfl⟩
  · cases ha : run.aliases with
    | none => exact mapGet_mapSet_self _ _ _
    | some al => exact mapGet_setAliases_keep _ _ _ _ (mapGet_mapSet_self _ _ _)
  · intro a hmem
    obtain ⟨al, hal, hlit⟩ := (mem_literalAliases run a).mp hmem
    simp only [hal]
    exact mapGet_setAliases_literal _ _ _ _ hlit
  · intro key hk hlit
    cases ha : run.aliases with
    | none => exact mapGet_mapSet_other _ _ _ _ hk
    | some al =>
      have hnot : Alias.literal key ∉ al := fun hm =>
        hlit ((mem_literalAliases run key).mpr ⟨al, ha, hm⟩)
      simp only
      rw [mapGet_setAliases_other _ _ _ _ hnot]
      exact mapGet_mapSet_other _ _ _ _ hk

/-- Claim C10 at a concrete input: the example plugin loaded into an empty registry. -/
theorem loadPluginFile_registers_command_witness :
    pingPlugin.name = some "Ping" ∧ literalAliases pingPlugin = ["p", "pong"] ∧
    mapGet (registryOf pingPlugin).commands "Ping" = some pingPlugin ∧
    (registryOf pingPlugin).commands.map Prod.fst = ["Ping", "p", "pong"] :=
  ⟨rfl, rfl,
    (loadPluginFile_registers_command emptyRegistry "test.js" pingPlugin "Ping" rfl rfl
      (by decide)).1,
    (loadPluginFile_registers_command emptyRegistry "test.js" pingPlugin "Ping" rfl rfl
      (by decide)).2.2.2.2⟩

/-- Claim C11 as stated fails: a unit that declares a name and no `exec` is put in the
command table, and a unit in a file named `_watch.js` whose `main` is a truthy value that
is not a function is appended to the event handlers. -/
theorem bodyless_unit_registered :
    bodylessCommand.exec.callable = false ∧ bodylessCommand.main.callable = false ∧
    (loadPluginFile emptyRegistry "broken.js" (some { run := some bodylessCommand })).commands =
      [("broken", bodylessCommand)] ∧
    stringMainUnit.exec.callable = false ∧ stringMainUnit.main.callable = false ∧
    (loadPluginFile emptyRegistry "_watch.js"
      (some { run := some stringMainUnit })).eventHandlers = [stringMainUnit] := by
  refine ⟨rfl, rfl, rfl, rfl, rfl, rfl⟩

/-- Claim C11, amended: `loadPluginFile` registers nothing for a file whose `require` fails
or whose module has no `run` export, and nothing for a unit that is neither an event unit
(file name starting with `_` and truthy `main`) nor has a truthy `name`; every descriptor it
appends to the event handlers has a truthy `main` and every descriptor it puts in the
command table has a truthy `name`. -/
theorem loadPluginFile_checks_presence (reg : CommandRegistry) (fileName : String)
    (plugin : Option PluginModule) :
    loadPluginFile reg fileName none = reg ∧
    loadPluginFile reg fileName (some { run := none }) = reg ∧
    (∀ run, (fileName.data.head? = some '_' && run.main.truthy) = false →
      nameTruthy run.name = false →
      loadPluginFile reg fileName (some { run := some run }) = reg) ∧
    (∀ d ∈ (loadPluginFile reg fileName plugin).eventHandlers,
      d ∈ reg.eventHandlers ∨ d.main.truthy = true) ∧
    (∀ e ∈ (loadPluginFile reg fileName plugin).commands,
      e ∈ reg.commands ∨ nameTruthy e.2.name = true) := by
  refine ⟨rfl, rfl, ?_, ?_, ?_⟩
  · intro run hevent hname
    unfold loadPluginFile
    simp only [hevent, Bool.false_eq_true, if_false]
    cases hn : run.name with
    | none => rfl
    | some name =>
      rw [hn] at hname
      simp only [hname, Bool.false_eq_true, if_false]
  · intro d hd
    unfold loadPluginFile at hd
    cases plugin with
    | none => exact Or.inl hd
    | some p =>
      cases hr : p.run with
      | none => simp only [hr] at hd; exact Or.inl hd
      | some run =>
        simp only [hr] at hd
        by_cases hev : (fileName.data.head? = some '_' && run.main.truthy) = true
        · simp only [hev, if_true, List.mem_append, List.mem_singleton] at hd
          rcases hd with hd | hd
          · exact Or.inl hd
          · simp only [Bool.and_eq_true] at hev
            exact Or.inr (by rw [hd]; exact hev.2)
        · simp only [hev, Bool.false_eq_true, if_false] at hd
          left
          revert hd
          cases run.name with
          | none => exact id
          | some name =>
            simp only
            split
            · cases run.aliases <;> exact id
            · exact id
  · intro e he
    unfold loadPluginFile at he
    cases plugin with
    | none => exact Or.inl he
    | some p =>
      cases hr : p.run with
      | none => simp only [hr] at he; exact Or.inl he
      | some run =>
        simp only [hr] at he
        by_cases hev : (fileName.data.head? = some '_' && run.main.truthy) = true
        · simp only [hev, if_true] at he
          exact Or.inl he
        · simp only [hev, Bool.false_eq_true, if_false] at he
          cases hn : run.name with
          | none => rw [hn] at he; exact Or.inl he
          | some name =>
            simp only [hn] at he
            by_cases ht : nameTruthy (some name) = true
            · simp only [ht, if_true] at he
              have hnew : ∀ x : String × Descriptor, x.2 = run → nameTruthy x.2.name = true := by
                intro x hx
                rw [hx, hn]
                exact ht
              cases ha : run.aliases with
              | none =>
                simp only [ha] at he
                rcases mem_mapSet _ _ _ _ he with h | h
                · exact Or.inl h
                · exact Or.inr (hnew e (by rw [h]))
              | some al =>
                simp only [ha] at he
                rcases mem_setAliases _ _ _ _ he with h | h
                · rcases mem_mapSet _ _ _ _ h with h' | h'
                  · exact Or.inl h'
                  · exact Or.inr (hnew e (by rw [h']))
                · exact Or.inr (hnew e h)
            · simp only [ht, Bool.false_eq_true, if_false] at he
              exact Or.inl he

/-- Claim C11, amended, at a concrete input: the example plugin loaded into an empty
registry; the entry stored under `pong` has a truthy name. -/
theorem loadPluginFile_checks_presence_witness :
    ("pong", pingPlugin) ∈ (registryOf pingPlugin).commands ∧
    nameTruthy pingPlugin.name = true :=
  ⟨List.Mem.tail _ (List.Mem.tail _ (List.Mem.head _)),
    ((loadPluginFile_checks_presence emptyRegistry "test.js"
      (some { run := some pingPlugin })).2.2.2.2 ("pong", pingPlugin)
      (List.Mem.tail _ (List.Mem.tail _ (List.Mem.head _)))).resolve_left
      (fun h => nomatch h)⟩

/-- Claim C12: for a group message whose roster is fetched and does not list the sender,
`processEventPlugins` runs the event handlers with `isAdmin = true` in the event context
(`isBotAdmin` being computed from the roster in the same way); for a message that is not a
group message it runs them with `isAdmin = false` and `isBotAdmin = false`. -/
theorem eventContext_admin_flags (reg : CommandRegistry) (msg : Message) (conn : Conn) :
    (∀ gm, msg.isGroup = true → conn.groupMetadata msg.chat = Outcome.value (some gm) →
      (∀ p ∈ gm.participants, p.id ≠ msg.sender) →
      processEventPlugins reg msg conn =
        (runEventHandlers msg
          { isAdmin := true, isBotAdmin := adminNotFalse gm.participants conn.userId }
          reg.eventHandlers, true)) ∧
    (msg.isGroup = false →
      processEventPlugins reg msg conn =
        (runEventHandlers msg { isAdmin := false, isBotAdmin := false }
          reg.eventHandlers, true)) := by
  constructor
  · intro gm hg hgm habs
    have hfind : gm.participants.find? (fun p => p.id == msg.sender) = none := by
      rw [List.find?_eq_none]
      intro p hp
      simpa using habs p hp
    unfold processEventPlugins
    simp only [hg, if_true, hgm]
    have hadm : adminNotFalse gm.participants msg.sender = true := by
      unfold adminNotFalse
      rw [hfind]
    rw [hadm]
  · intro hg
    unfold processEventPlugins
    simp [hg]

/-- Claim C12 at a concrete input: a group message from a sender that the fetched roster
does not list; the event handler is invoked with `isAdmin = true`. -/
theorem eventContext_admin_flags_witness :
    (strangerMessage none).isGroup = true ∧
    mainCalls (handleMessage sampleHost slashGlobals
      { emptyRegistry with eventHandlers := [observer] }
      (some (strangerMessage none)) rosterConn).trace =
      [(observer, { isAdmin := true, isBotAdmin := true })] ∧
    processEventPlugins { emptyRegistry with eventHandlers := [observer] }
      (strangerMessage none) rosterConn =
      (runEventHandlers (strangerMessage none) { isAdmin := true, isBotAdmin := true }
        [observer], true) :=
  ⟨rfl, rfl,
    (eventContext_admin_flags { emptyRegistry with eventHandlers := [observer] }
      (strangerMessage none) rosterConn).1
      { participants := [{ id := "111@s.whatsapp.net", admin := AdminField.rank "admin" }] }
      rfl rfl (by
        intro p hp
        simp only [List.mem_singleton] at hp
        rw [hp]
        decide)⟩

/-- Claim C13: whenever `handleMessage` invokes a command body, the `isOwner` flag of the
context it hands over is true if and only if the sender's raw identity equals, for some
identity `x` among the bot's decoded identity and the configured owners, the string made of
the digits of `x` followed by `@s.whatsapp.net`. -/
theorem isOwner_iff_normalized (host : Host) (g : Globals) (reg : CommandRegistry)
    (msg : Message) (conn : Conn) (bot : String) (d : Descriptor) (ctx : ExecContext)
    (hbot : conn.decodeJid conn.userId = Outcome.value bot)
    (hcall : (d, ctx) ∈ execCalls (handleMessage host g reg (some msg) conn).trace) :
    (ctx.isOwner = true ↔
      ∃ x ∈ bot :: g.owner, msg.sender = stripNonDigits x ++ "@s.whatsapp.net") ∧
    (∀ x : String, (stripNonDigits x).data = x.data.filter fun c => '0' ≤ c ∧ c ≤ '9') := by
  constructor
  · have hf := execCalls_handleMessage_flags host g reg msg conn d ctx hcall
    have ho := resolveFlags_isOwner host g msg conn bot ctx.isAdmin ctx.isOwner hbot hf
    rw [ho]
    simp only [List.contains_iff_exists_mem_beq, List.mem_map, beq_iff_eq]
    constructor
    · rintro ⟨s, ⟨x, hx, hs⟩, hsender⟩
      exact ⟨x, hx, by rw [hsender, hs]⟩
    · rintro ⟨x, hx, hsender⟩
      exact ⟨_, ⟨x, hx, rfl⟩, hsender⟩
  · intro x
    unfold stripNonDigits
    simp only
    congr 1
    funext c
    rw [Bool.eq_iff_iff]
    simp only [Char.isDigit, Bool.and_eq_true, decide_eq_true_eq]
    exact Iff.rfl

/-- Claim C13 at a concrete input: the owner `+1 (11)` is normalized to the sender
`111@s.whatsapp.net`, and the command invoked for the body `ping` receives `isOwner = true`. -/
theorem isOwner_iff_normalized_witness :
    execCalls (handleMessage sampleHost ownerGlobals (registryOf pingPlugin)
      (some (directMessage (some "ping"))) sampleConn).trace =
      [(pingPlugin, { pingContext with isOwner := true })] ∧
    (({ pingContext with isOwner := true } : ExecContext).isOwner = true ↔
      ∃ x ∈ "999@s.whatsapp.net" :: ownerGlobals.owner,
        (directMessage (some "ping")).sender = stripNonDigits x ++ "@s.whatsapp.net") :=
  ⟨rfl,
    (isOwner_iff_normalized sampleHost ownerGlobals (registryOf pingPlugin)
      (directMessage (some "ping")) sampleConn "999@s.whatsapp.net" pingPlugin
      { pingContext with isOwner := true } rfl (List.Mem.head _)).1⟩

/-- Claim C14 as stated fails: the components are compared as doubles, and the double
nearest to `9007199254740993` (`2 ^ 53 + 1`) is `9007199254740992`; the version
`9007199254740993` is greater than `9007199254740992`, yet `compareVersions` returns `0`. -/
theorem compareVersions_rounds_large_components :
    versionLt (componentValues ["9007199254740992"]) (componentValues ["9007199254740993"]) ∧
    jsNumber "9007199254740993" = JsNumber.int 9007199254740992 ∧
    jsNumber "9007199254740992" = JsNumber.int 9007199254740992 ∧
    compareVersions "9007199254740993" "9007199254740992" = 0 := by
  refine ⟨?_, by decide, by decide, by decide⟩
  have h : List.Lex (· < ·) [9007199254740992] [9007199254740993] :=
    List.Lex.rel (by decide)
  exact h

/-- Claim C14, amended: for two version strings made of dot-separated non-negative
integers below `2 ^ 53` (each a non-empty string of decimal digits), with an optional
leading `v`, `compareVersions v1 v2` is `1` exactly when `v1 > v2`, `-1` exactly when
`v1 < v2` and `0` exactly when they are equal, in the order that compares the components
from the left as numbers, a missing component counting as `0`; and
`compareVersions v2 v1 = - compareVersions v1 v2`. -/
theorem compareVersions_safe_components (lead1 lead2 : Bool) (cs1 cs2 : List String)
    (h1 : cs1 ≠ []) (h2 : cs2 ≠ [])
    (hd1 : ∀ c ∈ cs1, isDigits c = true ∧ decimalValue c.data < 2 ^ 53)
    (hd2 : ∀ c ∈ cs2, isDigits c = true ∧ decimalValue c.data < 2 ^ 53) :
    (compareVersions (versionString lead1 cs1) (versionString lead2 cs2) = 1 ↔
      versionLt (componentValues cs2) (componentValues cs1)) ∧
    (compareVersions (versionString lead1 cs1) (versionString lead2 cs2) = -1 ↔
      versionLt (componentValues cs1) (componentValues cs2)) ∧
    (compareVersions (versionString lead1 cs1) (versionString lead2 cs2) = 0 ↔
      versionEq (componentValues cs1) (componentValues cs2)) ∧
    compareVersions (versionString lead2 cs2) (versionString lead1 cs1) =
      - compareVersions (versionString lead1 cs1) (versionString lead2 cs2) := by
  have key : ∀ (la lb : Bool) (ca cb : List String), ca ≠ [] → cb ≠ [] →
      (∀ c ∈ ca, isDigits c = true ∧ decimalValue c.data < 2 ^ 53) →
      (∀ c ∈ cb, isDigits c = true ∧ decimalValue c.data < 2 ^ 53) →
      compareVersions (versionString la ca) (versionString lb cb) =
        lexCompare
          (padZeros (componentValues ca)
            (max (componentValues ca).length (componentValues cb).length))
          (padZeros (componentValues cb)
            (max (componentValues ca).length (componentValues cb).length)) := by
    intro la lb ca cb ha hb hda hdb
    unfold compareVersions
    rw [versionParts_versionString la ca ha hda, versionParts_versionString lb cb hb hdb]
    simp only [List.length_map]
    exact compareLoop_eq_lexCompare _ _ _ (Nat.le_max_left _ _) (Nat.le_max_right _ _)
  have hlen : (padZeros (componentValues cs1)
        (max (componentValues cs1).length (componentValues cs2).length)).length =
      (padZeros (componentValues cs2)
        (max (componentValues cs1).length (componentValues cs2).length)).length := by
    rw [length_padZeros _ _ (Nat.le_max_left _ _), length_padZeros _ _ (Nat.le_max_right _ _)]
  have h12 := key lead1 lead2 cs1 cs2 h1 h2 hd1 hd2
  have h21 := key lead2 lead1 cs2 cs1 h2 h1 hd2 hd1
  rw [Nat.max_comm (componentValues cs2).length (componentValues cs1).length] at h21
  refine ⟨?_, ?_, ?_, ?_⟩
  · rw [h12, lexCompare_eq_one _ _ hlen]
    unfold versionLt
    rw [Nat.max_comm (componentValues cs2).length (componentValues cs1).length]
  · rw [h12]
    unfold versionLt
    rw [← lexCompare_eq_one _ _ hlen.symm]
    have hs := lexCompare_swap
      (padZeros (componentValues cs1)
        (max (componentValues cs1).length (componentValues cs2).length))
      (padZeros (componentValues cs2)
        (max (componentValues cs1).length (componentValues cs2).length))
    constructor <;> intro h <;> omega
  · rw [h12, lexCompare_eq_zero _ _ hlen]
    rfl
  · rw [h21, h12, lexCompare_swap]

/-- Claim C14, amended, at a concrete input: `v1.2` equals `1.2.0`. -/
theorem compareVersions_safe_components_witness :
    versionString true ["1", "2"] = "v1.2" ∧ versionString false ["1", "2", "0"] = "1.2.0" ∧
    versionEq (componentValues ["1", "2"]) (componentValues ["1", "2", "0"]) ∧
    compareVersions (versionString true ["1", "2"]) (versionString false ["1", "2", "0"]) = 0 :=
  ⟨rfl, rfl, by decide,
    (compareVersions_safe_components true false ["1", "2"] ["1", "2", "0"]
      (by simp) (by simp)
      (by
        intro c hc
        simp only [List.mem_cons, List.mem_singleton, List.not_mem_nil, or_false] at hc
        rcases hc with h | h <;> rw [h] <;> decide)
      (by
        intro c hc
        simp only [List.mem_cons, List.mem_singleton, List.not_mem_nil, or_false] at hc
        rcases hc with h | h | h <;> rw [h] <;> decide)).2.2.1.mpr (by decide)⟩

/-- Claim C15, evaluated where the code departs from it: the sender `111@s.whatsapp.net`
has no record, the table holds the record of `222@s.whatsapp.net`; after the user step the
table holds the default record of the sender only, the record of the other user is gone.
The chat step, in the same situation, keeps the record of the other chat. -/
theorem new_sender_erases_other_users :
    tableGet usersBefore "111@s.whatsapp.net" = none ∧
    tableGet usersBefore "222@s.whatsapp.net" = some (Entry.record premiumUser) ∧
    userStep usersBefore "111@s.whatsapp.net" =
      ([("111@s.whatsapp.net", Entry.record userDefaults)], true) ∧
    tableGet (userStep usersBefore "111@s.whatsapp.net").1 "222@s.whatsapp.net" = none ∧
    tableGet (chatStep chatsBefore "555@g.us").1 "222@g.us" =
      some (Entry.record chatDefaults) := by
  refine ⟨rfl, rfl, rfl, rfl, rfl⟩

/-- Claim C16 as stated fails: in an existing chat record, `antiFoto` and `antiVideo` set
to `true` are reset to `false` (the step tests the keys `antifoto` and `antividio`), and an
`expired` that is not a number is replaced by `0`. -/
theorem healChat_overwrites_present_fields :
    recGet tunedChat "antiFoto" = some (FieldVal.bool true) ∧
    recGet (healChat tunedChat) "antiFoto" = some (FieldVal.bool false) ∧
    recGet tunedChat "antiVideo" = some (FieldVal.bool true) ∧
    recGet (healChat tunedChat) "antiVideo" = some (FieldVal.bool false) ∧
    recGet tunedChat "expired" = some (FieldVal.str "never") ∧
    recGet (healChat tunedChat) "expired" = some (FieldVal.num 0) ∧
    chatStep [("555@g.us", Entry.record tunedChat)] "555@g.us" =
      ([("555@g.us", Entry.record (healChat tunedChat))], true) := by
  refine ⟨rfl, rfl, rfl, rfl, rfl, rfl, rfl⟩

/-- Claim C16, amended: for every existing chat record, the healing step replaces the
record by its healed form, in which every field already present other than `antiFoto`,
`antiVideo` and `expired` keeps its value, `expired` keeps its value when it is a number
and becomes `0` otherwise, and no field outside the listed ones is added or changed;
healing a second time changes nothing. -/
theorem healChat_keeps_present_fields (r : Record) :
    (∀ key v, recGet r key = some v → key ≠ "antiFoto" → key ≠ "antiVideo" →
      key ≠ "expired" → recGet (healChat r) key = some v) ∧
    (isNumber (recGet r "expired") = true →
      recGet (healChat r) "expired" = recGet r "expired") ∧
    (isNumber (recGet r "expired") = false →
      recGet (healChat r) "expired" = some (FieldVal.num 0)) ∧
    (∀ key, key ∉ chatRules.map HealRule.target → recGet (healChat r) key = recGet r key) ∧
    healChat (healChat r) = healChat r ∧
    (∀ (chats : Table) (chat : String), tableGet chats chat = some (Entry.record r) →
      chatStep chats chat = (tableSet chats chat (Entry.record (healChat r)), true)) := by
  have hshape : ∀ rule ∈ chatRules, rule.target = "antiFoto" ∨ rule.target = "antiVideo" ∨
      rule.target = "expired" ∨ rule.check = Check.absent rule.target := by
    decide
  have hexp : chatRules.find? (fun rule => rule.target == "expired") =
      some { check := Check.notNumber "expired", target := "expired",
             dflt := FieldVal.num 0 } := by
    decide
  refine ⟨?_, ?_, ?_, ?_, ?_, ?_⟩
  · intro key v hv h1 h2 h3
    unfold healChat
    rw [recGet_foldl_applyRule chatRules chatRules_independent r key]
    cases hfind : chatRules.find? (fun rule => rule.target == key) with
    | none => exact hv
    | some rule =>
      have hmem : rule ∈ chatRules := List.mem_of_find?_eq_some hfind
      have ht : rule.target = key := by
        have := List.find?_some hfind
        simpa using this
      have hcheck : rule.check = Check.absent rule.target := by
        rcases hshape rule hmem with h | h | h | h
        · exact absurd (ht.symm.trans h) h1
        · exact absurd (ht.symm.trans h) h2
        · exact absurd (ht.symm.trans h) h3
        · exact h
      have hfires : rule.fires r = false := by
        unfold HealRule.fires
        rw [hcheck, ht]
        simp [hv]
      simp only [hfires, Bool.false_eq_true, if_false]
      exact hv
  · intro hnum
    unfold healChat
    rw [recGet_foldl_applyRule chatRules chatRules_independent r "expired", hexp]
    simp [HealRule.fires, hnum]
  · intro hnum
    unfold healChat
    rw [recGet_foldl_applyRule chatRules chatRules_independent r "expired", hexp]
    simp [HealRule.fires, hnum]
  · intro key hkey
    unfold healChat
    rw [recGet_foldl_applyRule chatRules chatRules_independent r key]
    cases hfind : chatRules.find? (fun rule => rule.target == key) with
    | none => rfl
    | some rule =>
      exfalso
      apply hkey
      have hmem : rule ∈ chatRules := List.mem_of_find?_eq_some hfind
      have ht : rule.target = key := by
        have := List.find?_some hfind
        simpa using this
      rw [← ht]
      exact List.mem_map_of_mem _ hmem
  · exact foldl_applyRule_idempotent chatRules chatRules_independent r
  · intro chats chat hget
    unfold chatStep
    simp [hget, typeofObject]

/-- Claim C16, amended, at a concrete input: the chat record with the welcome message
switched off keeps it switched off. -/
theorem healChat_keeps_present_fields_witness :
    recGet tunedChat "welcome" = some (FieldVal.bool false) ∧
    recGet (healChat tunedChat) "welcome" = some (FieldVal.bool false) ∧
    healChat (healChat tunedChat) = healChat tunedChat :=
  ⟨rfl,
    (healChat_keeps_present_fields tunedChat).1 "welcome" (FieldVal.bool false) rfl
      (by decide) (by decide) (by decide),
    (healChat_keeps_present_fields tunedChat).2.2.2.2.1⟩

end PlumeBot
